import Mathlib

/-!
# Loft-Monitor: the voltage divider and analogue temperature sensor libraries

A shallow embedding of `src/VDivider/VDivider.cpp` and of
`src/AlogTSensors/AlogTSensors.cpp`.

Modelling conventions.

* `float` values are rationals.  In `readADC`, whose result is an integer
  that depends on it, every `float` and `double` operation rounds to the
  nearest representable number (`toFloat`, `toDouble`).  Everywhere else the
  arithmetic is exact; the statements about voltages, resistances and
  temperatures are statements "in exact arithmetic".
* A floating-point computation is a value of `FComp`: it either yields a value
  together with the number of divisions it performed, or it has no finite
  defined value (`none`), which happens when a divisor is zero (IEEE would give
  an infinity or a NaN) or when a `float` is converted to a `uint16_t` that
  cannot hold it (undefined behaviour in C++).
* The thermistor curves use `log`, which leaves the rationals: the `float`s
  of `class Thermistor` are elements of an ordered field `K` that comes with
  a logarithm `ln` (the reals with `Real.log` in the theorems), and a
  resistance computed by the divider is embedded in `K`.
* `uint16_t` values are naturals; a conversion into `uint16_t` is written out
  (`toUInt16` for `float`, `castUInt16` for `int`).
* `_adcMax + 1` is evaluated after integer promotion in an `int` wider than
  16 bits (the targets for which `_AVREF` is 3.3), so the sum of a 16-bit
  `_adcMax` and one does not wrap; with a 16-bit `int` the same value results
  for every `_adcMax` below 65535.
* The analogue input is a function from the index of an `analogRead` call to
  the (non-negative) value the call returns; the sampling functions take the
  index of the next call and return the index after their last call.
  `delay` only consumes time and has no counterpart.
-/

namespace LoftMonitor

/-! ## Floating-point computations -/

/-- A computation on `float`s: `none` when it has no finite defined value,
otherwise the value and the number of divisions performed. -/
def FComp (α : Type) : Type := Option (α × Nat)

namespace FComp

/-- A value obtained without any division. -/
def ret {α : Type} (a : α) : FComp α := some (a, 0)

/-- An undefined result. -/
def undef {α : Type} : FComp α := none

/-- Sequencing: the divisions of both parts are added. -/
def andThen {α β : Type} (x : FComp α) (f : α → FComp β) : FComp β :=
  match x with
  | none => none
  | some (a, n) =>
    match f a with
    | none => none
    | some (b, m) => some (b, n + m)

/-- The value of a computation, when it has one. -/
def value {α : Type} (x : FComp α) : Option α :=
  match x with
  | none => none
  | some (a, _) => some a

/-- The number of divisions performed by a computation that has a value. -/
def divisions {α : Type} (x : FComp α) : Option Nat :=
  match x with
  | none => none
  | some (_, n) => some n

instance : Monad FComp where
  pure := ret
  bind := andThen

end FComp

/-- The `float` division `a / b`; a zero divisor leaves no finite value. -/
def fdiv {K : Type} [DivisionRing K] [DecidableEq K] (a b : K) : FComp K :=
  if b = 0 then none else some (a / b, 1)

/-- The C library function `log` on `float`s, for the logarithm `ln` of the
number field: a finite value only at a positive argument. -/
def flog {K : Type} [LinearOrderedField K] (ln : K → K) (x : K) : FComp K :=
  if 0 < x then FComp.ret (ln x) else FComp.undef

/-- Truncation toward zero, the rounding of a `float` to integer conversion. -/
def truncate (q : ℚ) : Int :=
  if 0 ≤ q then ⌊q⌋ else ⌈q⌉

/-- Conversion of a `float` to `uint16_t`: defined when the truncated value
is representable. -/
def toUInt16 (q : ℚ) : FComp Nat :=
  if 0 ≤ truncate q ∧ truncate q < 65536 then FComp.ret (truncate q).toNat
  else FComp.undef

/-- The cast `(uint16_t)` applied to an `int`. -/
def castUInt16 (i : Int) : Nat := (i % 65536).toNat

/-- Arduino: `constrain(amt, low, high)`, an expression that yields the
bounded value and leaves `amt` untouched. -/
def constrain {α : Type} [LinearOrder α] (amt low high : α) : α :=
  if amt < low then low else if amt > high then high else amt

/-! ## Rounding to `float` and `double` -/

/-- Rounding to the nearest integer, a tie going to the even one. -/
def roundHalfEven (q : ℚ) : Int :=
  if q - ⌊q⌋ < 1 / 2 then ⌊q⌋
  else if 1 / 2 < q - ⌊q⌋ then ⌊q⌋ + 1
  else if ⌊q⌋ % 2 = 0 then ⌊q⌋ else ⌊q⌋ + 1

/-- The binary floating-point number with a significand of `p` bits nearest to
`q`, a tie going to the even significand: `q` is scaled by the unit in the
last place of its binade and rounded there.  The exponent is not bounded (the
values of `readADC` lie far inside the range of `float`). -/
def roundFloat (p : Nat) (q : ℚ) : ℚ :=
  if q = 0 then 0
  else (roundHalfEven (q / (2 : ℚ) ^ (Int.log 2 |q| - (p : Int) + 1)) : ℚ)
    * (2 : ℚ) ^ (Int.log 2 |q| - (p : Int) + 1)

/-- Rounding to `float`, IEEE binary32 with a significand of 24 bits. -/
def toFloat (q : ℚ) : ℚ := roundFloat 24 q

/-- Rounding to `double`, IEEE binary64 with a significand of 53 bits. -/
def toDouble (q : ℚ) : ℚ := roundFloat 53 q

/-! ## The divider -/

/-- The data members of `class vDivider`. -/
structure vDivider where
  pin : Nat
  balanceResistor : ℚ
  isR1 : Bool
  samples : Nat
  sampleDelay : Nat
  adcReadyDelay : Nat
  avRef : ℚ
  adcMax : Nat
  deriving DecidableEq

namespace vDivider

/-- The constructor `vDivider::vDivider` with the macro defaults of
`VDivider.h` (`_AVREF` as defined when `__AVR__` is not). -/
def defaults (pin : Nat) (balanceResistor : ℚ) (isR1 : Bool) : vDivider :=
  { pin := pin, balanceResistor := balanceResistor, isR1 := isR1,
    samples := 16, sampleDelay := 1, adcReadyDelay := 10, avRef := 33 / 10, adcMax := 1023 }

/-- `vDivider::setConsts`. -/
def setConsts (d : vDivider) (samples sampleDelay adcReadyDelay : Nat) (avRef : ℚ)
    (adcMax : Nat) : vDivider :=
  { d with samples := samples, sampleDelay := sampleDelay, adcReadyDelay := adcReadyDelay,
           avRef := avRef, adcMax := adcMax }

/-- The loop of `readADC`: `k` further readings starting at call `t`.  The
statement `totalADC += (analogRead(_pin) + 0.5)` forms `analogRead(_pin) + 0.5`
and the sum with `totalADC` in `double` and stores it in the `float`
accumulator. -/
def accumulate (adc : Nat → Nat) : Nat → Nat → ℚ → ℚ × Nat
  | 0, t, totalADC => (totalADC, t)
  | k + 1, t, totalADC =>
    accumulate adc k (t + 1) (toFloat (toDouble (totalADC + toDouble ((adc t : ℚ) + 1 / 2))))

/-- `vDivider::readADC`: the averaged code and the index of the next
`analogRead` call.  `totalADC / _samples` is a `float` division, the sum with
`0.5` is formed in `double` and converted to `uint16_t`. -/
def readADC (d : vDivider) (adc : Nat → Nat) (t : Nat) : FComp Nat × Nat :=
  let t1 := if d.adcReadyDelay > 0 then t + 1 else t
  let r := accumulate adc d.samples t1 0
  (do
    let q ← fdiv r.1 (d.samples : ℚ)
    toUInt16 (toDouble (toFloat q + 1 / 2)), r.2)

/-- `vDivider::calcVOut(uint16_t)`; the value of `constrain` is discarded. -/
def calcVOut_u16 (d : vDivider) (averageADC : Nat) : FComp ℚ :=
  let _ := constrain averageADC 0 d.adcMax
  do
    let q ← fdiv d.avRef ((d.adcMax + 1 : Nat) : ℚ)
    pure ((averageADC : ℚ) * q)

/-- `vDivider::calcVOut()`. -/
def calcVOut (d : vDivider) (adc : Nat → Nat) (t : Nat) : FComp ℚ × Nat :=
  let r := readADC d adc t
  (do
    let averageADC ← r.1
    let q ← fdiv d.avRef ((d.adcMax + 1 : Nat) : ℚ)
    pure ((averageADC : ℚ) * q), r.2)

/-- `vDivider::calcRRatio(uint16_t)`. -/
def calcRRatio_u16 (d : vDivider) (averageADC : Nat) : FComp ℚ := do
  let q ← fdiv ((d.adcMax + 1 : Nat) : ℚ) (averageADC : ℚ)
  pure (q - 1)

/-- `vDivider::calcRRatio(float)`. -/
def calcRRatio_float (d : vDivider) (vOut : ℚ) : FComp ℚ := do
  let q ← fdiv d.avRef vOut
  pure (q - 1)

/-- `vDivider::doCalcR1(uint16_t)`. -/
def doCalcR1_u16 (d : vDivider) (averageADC : Nat) : FComp ℚ :=
  if d.balanceResistor > 0 then
    if d.isR1 then pure d.balanceResistor
    else do
      let rRatio ← calcRRatio_u16 d averageADC
      pure (d.balanceResistor * rRatio)
  else pure 0

/-- `vDivider::doCalcR1(float)`. -/
def doCalcR1_float (d : vDivider) (vOut : ℚ) : FComp ℚ :=
  if d.balanceResistor > 0 then
    if d.isR1 then pure d.balanceResistor
    else do
      let rRatio ← calcRRatio_float d vOut
      pure (d.balanceResistor * rRatio)
  else pure 0

/-- `vDivider::doCalcR2(uint16_t)`. -/
def doCalcR2_u16 (d : vDivider) (averageADC : Nat) : FComp ℚ :=
  if d.balanceResistor > 0 then
    if d.isR1 then do
      let rRatio ← calcRRatio_u16 d averageADC
      fdiv d.balanceResistor rRatio
    else pure d.balanceResistor
  else pure 0

/-- `vDivider::doCalcR2(float)`. -/
def doCalcR2_float (d : vDivider) (vOut : ℚ) : FComp ℚ :=
  if d.balanceResistor > 0 then
    if d.isR1 then do
      let rRatio ← calcRRatio_float d vOut
      fdiv d.balanceResistor rRatio
    else pure d.balanceResistor
  else pure 0

/-- `vDivider::doCalcR1x(uint16_t)`. -/
def doCalcR1x_u16 (d : vDivider) (averageADC : Nat) : FComp ℚ :=
  if d.balanceResistor > 0 then do
    let rRatio ← calcRRatio_u16 d averageADC
    pure (d.balanceResistor * rRatio)
  else pure 0

/-- `vDivider::doCalcR1x(float)`. -/
def doCalcR1x_float (d : vDivider) (vOut : ℚ) : FComp ℚ :=
  if d.balanceResistor > 0 then do
    let rRatio ← calcRRatio_float d vOut
    pure (d.balanceResistor * rRatio)
  else pure 0

/-- `vDivider::doCalcR2x(uint16_t)`. -/
def doCalcR2x_u16 (d : vDivider) (averageADC : Nat) : FComp ℚ :=
  if d.balanceResistor > 0 then do
    let rRatio ← calcRRatio_u16 d averageADC
    fdiv d.balanceResistor rRatio
  else pure 0

/-- `vDivider::doCalcR2x(float)`. -/
def doCalcR2x_float (d : vDivider) (vOut : ℚ) : FComp ℚ :=
  if d.balanceResistor > 0 then do
    let rRatio ← calcRRatio_float d vOut
    fdiv d.balanceResistor rRatio
  else pure 0

/-- `vDivider::calcR1(uint16_t)`; the value of `constrain` is discarded. -/
def calcR1_u16 (d : vDivider) (averageADC : Nat) : FComp ℚ :=
  let _ := constrain averageADC 0 d.adcMax
  doCalcR1_u16 d averageADC

/-- `vDivider::calcR1(int)`. -/
def calcR1_int (d : vDivider) (averageADC : Int) : FComp ℚ :=
  calcR1_u16 d (castUInt16 averageADC)

/-- `vDivider::calcR1(float)`; the value of `constrain` is discarded. -/
def calcR1_float (d : vDivider) (vOut : ℚ) : FComp ℚ :=
  let _ := constrain vOut 0 d.avRef
  doCalcR1_float d vOut

/-- `vDivider::calcR1()`. -/
def calcR1 (d : vDivider) (adc : Nat → Nat) (t : Nat) : FComp ℚ × Nat :=
  let r := readADC d adc t
  (do
    let averageADC ← r.1
    doCalcR1_u16 d averageADC, r.2)

/-- `vDivider::calcR2(uint16_t)`; the value of `constrain` is discarded. -/
def calcR2_u16 (d : vDivider) (averageADC : Nat) : FComp ℚ :=
  let _ := constrain averageADC 0 d.adcMax
  doCalcR2_u16 d averageADC

/-- `vDivider::calcR2(int)`. -/
def calcR2_int (d : vDivider) (averageADC : Int) : FComp ℚ :=
  calcR2_u16 d (castUInt16 averageADC)

/-- `vDivider::calcR2(float)`; the value of `constrain` is discarded. -/
def calcR2_float (d : vDivider) (vOut : ℚ) : FComp ℚ :=
  let _ := constrain vOut 0 d.avRef
  doCalcR2_float d vOut

/-- `vDivider::calcR2()`. -/
def calcR2 (d : vDivider) (adc : Nat → Nat) (t : Nat) : FComp ℚ × Nat :=
  let r := readADC d adc t
  (do
    let averageADC ← r.1
    doCalcR2_u16 d averageADC, r.2)

/-- `vDivider::calcR1x(uint16_t)`; the value of `constrain` is discarded. -/
def calcR1x_u16 (d : vDivider) (averageADC : Nat) : FComp ℚ :=
  let _ := constrain averageADC 0 d.adcMax
  doCalcR1x_u16 d averageADC

/-- `vDivider::calcR1x(int)`. -/
def calcR1x_int (d : vDivider) (averageADC : Int) : FComp ℚ :=
  calcR1x_u16 d (castUInt16 averageADC)

/-- `vDivider::calcR1x(float)`; the value of `constrain` is discarded. -/
def calcR1x_float (d : vDivider) (vOut : ℚ) : FComp ℚ :=
  let _ := constrain vOut 0 d.avRef
  doCalcR1x_float d vOut

/-- `vDivider::calcR1x()`. -/
def calcR1x (d : vDivider) (adc : Nat → Nat) (t : Nat) : FComp ℚ × Nat :=
  let r := readADC d adc t
  (do
    let averageADC ← r.1
    doCalcR1x_u16 d averageADC, r.2)

/-- `vDivider::calcR2x(uint16_t)`; the value of `constrain` is discarded. -/
def calcR2x_u16 (d : vDivider) (averageADC : Nat) : FComp ℚ :=
  let _ := constrain averageADC 0 d.adcMax
  doCalcR2x_u16 d averageADC

/-- `vDivider::calcR2x(int)`. -/
def calcR2x_int (d : vDivider) (averageADC : Int) : FComp ℚ :=
  calcR2x_u16 d (castUInt16 averageADC)

/-- `vDivider::calcR2x(float)`; the value of `constrain` is discarded. -/
def calcR2x_float (d : vDivider) (vOut : ℚ) : FComp ℚ :=
  let _ := constrain vOut 0 d.avRef
  doCalcR2x_float d vOut

/-- `vDivider::calcR2x()`: the averaged code is handed to `doCalcR1x`. -/
def calcR2x (d : vDivider) (adc : Nat → Nat) (t : Nat) : FComp ℚ × Nat :=
  let r := readADC d adc t
  (do
    let averageADC ← r.1
    doCalcR1x_u16 d averageADC, r.2)

end vDivider

open vDivider

/-! ## The readings of one sampling pass -/

/-- Index of the `analogRead` call that delivers the first accumulated
reading: one call later when the warm-up read is made. -/
def firstSample (d : vDivider) (t : Nat) : Nat :=
  if d.adcReadyDelay > 0 then t + 1 else t

/-- The readings accumulated by `readADC` started at call `t`, in order. -/
def samplesTaken (d : vDivider) (adc : Nat → Nat) (t : Nat) : List Nat :=
  (List.range d.samples).map fun i => adc (firstSample d t + i)

/-- The quantity `(sum of (x + 0.5)) / n + 0.5` of a sequence of readings. -/
def biasedMean (xs : List Nat) : ℚ :=
  (xs.map fun (x : Nat) => (x : ℚ) + 1 / 2).sum / (xs.length : ℚ) + 1 / 2

/-- The arithmetic mean of a sequence of readings. -/
def mean (xs : List Nat) : ℚ :=
  ((xs.sum : Nat) : ℚ) / (xs.length : ℚ)

/-! ## The TMP36 sensor -/

/-- The data members of `class TMP36`, a `vDivider` with a linear
voltage-to-temperature mapping. -/
structure TMP36 extends vDivider where
  offset : ℚ
  multiplier : ℚ

namespace TMP36

/-- The constructor `TMP36::TMP36`: a divider with balance resistor `0.0`
(and the default `isR1`), `_TMP36OFFSET` and `_TMP36MULTIPLIER`. -/
def new (sPin : Nat) : TMP36 :=
  { tovDivider := vDivider.defaults sPin 0 true, offset := 1 / 2, multiplier := 100 }

end TMP36

namespace TMP36

/-- `TMP36::setParms`. -/
def setParms (s : TMP36) (offset multiplier : ℚ) : TMP36 :=
  { s with offset := offset, multiplier := multiplier }

/-- `TMP36::convertCelsiusToKelvin`. -/
def convertCelsiusToKelvin (temperatureC : ℚ) : ℚ :=
  temperatureC + 27315 / 100

/-- `TMP36::convertCelsiusToFahrenheit`. -/
def convertCelsiusToFahrenheit (temperatureC : ℚ) : FComp ℚ := do
  let q ← fdiv (temperatureC * 9) 5
  pure (q + 32)

/-- `TMP36::readTemperatureC()`. -/
def readTemperatureC (s : TMP36) (adc : Nat → Nat) (t : Nat) : FComp ℚ × Nat :=
  let r := vDivider.calcVOut s.tovDivider adc t
  (do
    let vOut ← r.1
    pure ((vOut - s.offset) * s.multiplier), r.2)

/-- `TMP36::readTemperatureC(uint16_t)`. -/
def readTemperatureC_u16 (s : TMP36) (averageADC : Nat) : FComp ℚ := do
  let vOut ← vDivider.calcVOut_u16 s.tovDivider averageADC
  pure ((vOut - s.offset) * s.multiplier)

/-- `TMP36::readTemperatureC(float)`; the value of `constrain` is discarded. -/
def readTemperatureC_float (s : TMP36) (vOut : ℚ) : FComp ℚ :=
  let _ := constrain vOut 0 (s.adcMax : ℚ)
  pure ((vOut - s.offset) * s.multiplier)

/-- `TMP36::readTemperatureK()`. -/
def readTemperatureK (s : TMP36) (adc : Nat → Nat) (t : Nat) : FComp ℚ × Nat :=
  let r := readTemperatureC s adc t
  (do
    let temperatureC ← r.1
    pure (convertCelsiusToKelvin temperatureC), r.2)

/-- `TMP36::readTemperatureK(uint16_t)`. -/
def readTemperatureK_u16 (s : TMP36) (averageADC : Nat) : FComp ℚ := do
  let temperatureC ← readTemperatureC_u16 s averageADC
  pure (convertCelsiusToKelvin temperatureC)

/-- `TMP36::readTemperatureK(float)`. -/
def readTemperatureK_float (s : TMP36) (vOut : ℚ) : FComp ℚ := do
  let temperatureC ← readTemperatureC_float s vOut
  pure (convertCelsiusToKelvin temperatureC)

/-- `TMP36::readTemperatureF()`. -/
def readTemperatureF (s : TMP36) (adc : Nat → Nat) (t : Nat) : FComp ℚ × Nat :=
  let r := readTemperatureC s adc t
  (do
    let temperatureC ← r.1
    convertCelsiusToFahrenheit temperatureC, r.2)

/-- `TMP36::readTemperatureF(uint16_t)`. -/
def readTemperatureF_u16 (s : TMP36) (averageADC : Nat) : FComp ℚ := do
  let temperatureC ← readTemperatureC_u16 s averageADC
  convertCelsiusToFahrenheit temperatureC

/-- `TMP36::readTemperatureF(float)`. -/
def readTemperatureF_float (s : TMP36) (vOut : ℚ) : FComp ℚ := do
  let temperatureC ← readTemperatureC_float s vOut
  convertCelsiusToFahrenheit temperatureC

end TMP36

/-! ## The thermistor -/

/-- The data members of `class Thermistor`, a `vDivider` with the parameters
of the Beta model and of the Steinhart-Hart model. -/
structure Thermistor (K : Type) extends vDivider where
  tType : Nat
  useCBeta : Bool
  nomRst : K
  nomTemp : K
  cBeta : K
  coefficient1 : K
  coefficient2 : K
  coefficient3 : K

namespace Thermistor

/-- `Thermistor::setCBeta`; the `uint16_t` argument is stored in a `float`. -/
def setCBeta {K : Type} [LinearOrderedField K] (th : Thermistor K) (cBeta : Nat)
    (nomRst nomTemp : K) : Thermistor K :=
  { th with useCBeta := true, cBeta := (cBeta : K), nomRst := nomRst, nomTemp := nomTemp }

/-- `Thermistor::setC123`. -/
def setC123 {K : Type} [LinearOrderedField K] (th : Thermistor K)
    (coefficient1 coefficient2 coefficient3 : K) : Thermistor K :=
  { th with useCBeta := false, coefficient1 := coefficient1, coefficient2 := coefficient2,
            coefficient3 := coefficient3 }

/-- `Thermistor::convertKelvinToCelsius`. -/
def convertKelvinToCelsius {K : Type} [LinearOrderedField K] (temperatureK : K) : K :=
  temperatureK - 27315 / 100

/-- `Thermistor::convertCelsiusToFahrenheit`. -/
def convertCelsiusToFahrenheit {K : Type} [LinearOrderedField K] (temperatureC : K) :
    FComp K := do
  let q ← fdiv (temperatureC * 9) 5
  pure (q + 32)

/-- `Thermistor::readTemperatureK(float)`. -/
def readTemperatureK_float {K : Type} [LinearOrderedField K] (ln : K → K)
    (th : Thermistor K) (tRst : K) : FComp K := do
  let oneOverTK ←
    if th.useCBeta then do
      let a ← fdiv 1 (th.nomTemp + 27315 / 100)
      let b ← fdiv 1 th.cBeta
      let q ← fdiv tRst th.nomRst
      let l ← flog ln q
      pure (a + b * l)
    else do
      let lntRst ← flog ln tRst
      pure (th.coefficient1 + th.coefficient2 * lntRst + th.coefficient3 * lntRst ^ 3)
  fdiv 1 oneOverTK

/-- `Thermistor::readTemperatureK()`. -/
def readTemperatureK {K : Type} [LinearOrderedField K] (ln : K → K)
    (th : Thermistor K) (adc : Nat → Nat) (t : Nat) : FComp K × Nat :=
  let r := if th.isR1 then vDivider.calcR2 th.tovDivider adc t
    else vDivider.calcR1 th.tovDivider adc t
  (do
    let tRst ← r.1
    readTemperatureK_float ln th (tRst : K), r.2)

/-- `Thermistor::readTemperatureC()`. -/
def readTemperatureC {K : Type} [LinearOrderedField K] (ln : K → K)
    (th : Thermistor K) (adc : Nat → Nat) (t : Nat) : FComp K × Nat :=
  let r := readTemperatureK ln th adc t
  (do
    let temperature ← r.1
    pure (convertKelvinToCelsius temperature), r.2)

/-- `Thermistor::readTemperatureC(float)`. -/
def readTemperatureC_float {K : Type} [LinearOrderedField K] (ln : K → K)
    (th : Thermistor K) (tRst : K) : FComp K := do
  let temperatureK ← readTemperatureK_float ln th tRst
  pure (convertKelvinToCelsius temperatureK)

/-- `Thermistor::readTemperatureF()`. -/
def readTemperatureF {K : Type} [LinearOrderedField K] (ln : K → K)
    (th : Thermistor K) (adc : Nat → Nat) (t : Nat) : FComp K × Nat :=
  let r := readTemperatureC ln th adc t
  (do
    let temperatureC ← r.1
    convertCelsiusToFahrenheit temperatureC, r.2)

/-- `Thermistor::readTemperatureF(float)`. -/
def readTemperatureF_float {K : Type} [LinearOrderedField K] (ln : K → K)
    (th : Thermistor K) (tRst : K) : FComp K := do
  let temperatureC ← readTemperatureC_float ln th tRst
  convertCelsiusToFahrenheit temperatureC

end Thermistor

namespace Thermistor

/-- `Thermistor::setTType`, with the coefficient macros of `AlogTSensors.h`
(`ATS_KY013` is 13, `ATS_MF52D` is 52). -/
def setTType {K : Type} [LinearOrderedField K] (th : Thermistor K) (tType : Nat) :
    Thermistor K :=
  let th1 : Thermistor K := { th with tType := tType }
  if tType = 13 then
    setC123 th1 (5182977433 / 10000000000000) (2252079282 / 10000000000000)
      (1615362158 / 10000000000000000)
  else if tType = 52 then
    setCBeta th1 3435 10000 25
  else if th1.useCBeta then
    { th1 with cBeta := 3435, nomRst := 10000, nomTemp := 25 }
  else
    { th1 with coefficient1 := 1129148 / 1000000000, coefficient2 := 234125 / 1000000000,
               coefficient3 := 876741 / 10000000000000 }

/-- The constructor `Thermistor::Thermistor`; the members it leaves
unassigned hold the indeterminate value `u`. -/
def new {K : Type} [LinearOrderedField K] (sPin : Nat) (balanceResistor : ℚ)
    (isR1 useCBeta : Bool) (u : K) : Thermistor K :=
  setTType
    { tovDivider := vDivider.defaults sPin balanceResistor isR1, tType := 0,
      useCBeta := useCBeta, nomRst := u, nomTemp := u, cBeta := u,
      coefficient1 := u, coefficient2 := u, coefficient3 := u } 0

end Thermistor

/-! ## The calibration curves in the words of the specification -/

/-- Beta model: `invT = 1/(nominalTempC+273.15) + (1/betaCoefficient) *
ln(r/nominalResistance)`. -/
def betaInvT {K : Type} [LinearOrderedField K] (ln : K → K)
    (betaCoefficient nominalResistance nominalTempC r : K) : K :=
  1 / (nominalTempC + 27315 / 100) + (1 / betaCoefficient) * ln (r / nominalResistance)

/-- Steinhart-Hart model: `lnR = ln(r)`, `invT = c1 + c2*lnR + c3*lnR^3`. -/
def steinhartHartInvT {K : Type} [LinearOrderedField K] (ln : K → K) (c1 c2 c3 r : K) : K :=
  c1 + c2 * ln r + c3 * ln r ^ 3

/-! ## The instance counter -/

/-- The initial value of the static `uint8_t vDivider::_vDivCounter`. -/
def vDivCounterInit : Nat := 0

/-- The statement `_vDivCounter++` of the constructor, on a `uint8_t`. -/
def vDivCounterIncr (counter : Nat) : Nat := (counter + 1) % 256

/-- The statement `_vDivCounter--` of the destructor, on a `uint8_t`. -/
def vDivCounterDecr (counter : Nat) : Nat := (((counter : Int) - 1) % 256).toNat

/-- `vDivider::vDivCount` after `n` constructions followed by `m`
destructions, starting from a counter value. -/
def vDivCount (counter n m : Nat) : Nat :=
  vDivCounterDecr^[m] (vDivCounterIncr^[n] counter)

/-! ## Auxiliary facts -/

namespace FComp
@[simp] theorem value_ret {α : Type} (a : α) : (ret a).value = some a := rfl
@[simp] theorem divisions_ret {α : Type} (a : α) : (ret a).divisions = some 0 := rfl
theorem pure_eq {α : Type} (a : α) : (pure a : FComp α) = ret a := rfl
theorem bind_eq {α β : Type} (x : FComp α) (f : α → FComp β) : (x >>= f) = x.andThen f := rfl
end FComp

theorem fdiv_of_ne (a : ℚ) {b : ℚ} (h : b ≠ 0) : fdiv a b = some (a / b, 1) := by
  simp [fdiv, h]

theorem fdiv_zero (a : ℚ) : fdiv a 0 = none := by
  simp [fdiv]

theorem calcRRatio_u16_eq (d : vDivider) (code : Nat) :
    calcRRatio_u16 d code =
      if code = 0 then none else some (((d.adcMax + 1 : Nat) : ℚ) / code - 1, 1) := by
  unfold calcRRatio_u16
  by_cases h : code = 0
  · subst h
    simp [fdiv, FComp.bind_eq, FComp.andThen]
  · have h' : (code : ℚ) ≠ 0 := by exact_mod_cast h
    simp [fdiv, FComp.bind_eq, FComp.andThen, FComp.pure_eq, FComp.ret, h, h']

theorem calcRRatio_float_eq (d : vDivider) (v : ℚ) :
    calcRRatio_float d v = if v = 0 then none else some (d.avRef / v - 1, 1) := by
  unfold calcRRatio_float
  by_cases h : v = 0
  · subst h
    simp [fdiv, FComp.bind_eq, FComp.andThen]
  · simp [fdiv, FComp.bind_eq, FComp.andThen, FComp.pure_eq, FComp.ret, h]

theorem doCalcR1x_u16_eq (d : vDivider) (code : Nat) (hb : d.balanceResistor > 0) (hc : code ≠ 0) :
    doCalcR1x_u16 d code =
      some (d.balanceResistor * (((d.adcMax + 1 : Nat) : ℚ) / code - 1), 1) := by
  simp [doCalcR1x_u16, hb, calcRRatio_u16_eq, hc, FComp.bind_eq, FComp.andThen, FComp.pure_eq, FComp.ret]

theorem doCalcR2x_u16_eq (d : vDivider) (code : Nat) (hb : d.balanceResistor > 0) (hc : code ≠ 0) :
    doCalcR2x_u16 d code =
      if ((d.adcMax + 1 : Nat) : ℚ) / code - 1 = 0 then none
      else some (d.balanceResistor / (((d.adcMax + 1 : Nat) : ℚ) / code - 1), 2) := by
  simp only [doCalcR2x_u16, hb, calcRRatio_u16_eq, hc, FComp.bind_eq, FComp.andThen, if_true, if_false]
  unfold fdiv
  split_ifs <;> simp_all

theorem doCalcR1x_float_eq (d : vDivider) (v : ℚ) (hb : d.balanceResistor > 0) (hv : v ≠ 0) :
    doCalcR1x_float d v = some (d.balanceResistor * (d.avRef / v - 1), 1) := by
  simp [doCalcR1x_float, hb, calcRRatio_float_eq, hv, FComp.bind_eq, FComp.andThen,
    FComp.pure_eq, FComp.ret]

theorem doCalcR2x_float_eq (d : vDivider) (v : ℚ) (hb : d.balanceResistor > 0) (hv : v ≠ 0) :
    doCalcR2x_float d v =
      if d.avRef / v - 1 = 0 then none
      else some (d.balanceResistor / (d.avRef / v - 1), 2) := by
  simp only [doCalcR2x_float, hb, calcRRatio_float_eq, hv, FComp.bind_eq, FComp.andThen,
    if_true, if_false]
  unfold fdiv
  split_ifs <;> simp_all

theorem doCalcR1_u16_of_isR2 (d : vDivider) (code : Nat) (h : d.isR1 = false) :
    doCalcR1_u16 d code = doCalcR1x_u16 d code := by
  simp [doCalcR1_u16, doCalcR1x_u16, h]

theorem doCalcR1_float_of_isR2 (d : vDivider) (v : ℚ) (h : d.isR1 = false) :
    doCalcR1_float d v = doCalcR1x_float d v := by
  simp [doCalcR1_float, doCalcR1x_float, h]

theorem doCalcR2_u16_of_isR1 (d : vDivider) (code : Nat) (h : d.isR1 = true) :
    doCalcR2_u16 d code = doCalcR2x_u16 d code := by
  simp [doCalcR2_u16, doCalcR2x_u16, h]

theorem doCalcR2_float_of_isR1 (d : vDivider) (v : ℚ) (h : d.isR1 = true) :
    doCalcR2_float d v = doCalcR2x_float d v := by
  simp [doCalcR2_float, doCalcR2x_float, h]

/-! ## The resistance formulas -/

/-- C1 (as stated, refuted): with the default divider, a 10 kΩ balance
resistor and the code 256 the ratio is `r = 1024/256 - 1 = 3`; `calcR2x`
yields `10000 / 3`, not `10000 * r`, and `calcR1x` yields `30000`, not
`10000 / r`. -/
theorem calcRx_code_not_as_claimed :
    (calcR2x_u16 (defaults 14 10000 true) 256).value = some (10000 / 3) ∧
    (calcR2x_u16 (defaults 14 10000 true) 256).value
      ≠ some ((10000 : ℚ) * (((1023 + 1 : Nat) : ℚ) / (256 : Nat) - 1)) ∧
    (calcR1x_u16 (defaults 14 10000 true) 256).value = some 30000 ∧
    (calcR1x_u16 (defaults 14 10000 true) 256).value
      ≠ some ((10000 : ℚ) / (((1023 + 1 : Nat) : ℚ) / (256 : Nat) - 1)) := by
  have h2 : calcR2x_u16 (defaults 14 10000 true) 256 = some (10000 / 3, 2) := by
    show doCalcR2x_u16 _ _ = _
    rw [doCalcR2x_u16_eq _ _ (by norm_num [defaults]) (by norm_num)]
    norm_num [defaults]
  have h1 : calcR1x_u16 (defaults 14 10000 true) 256 = some (30000, 1) := by
    show doCalcR1x_u16 _ _ = _
    rw [doCalcR1x_u16_eq _ _ (by norm_num [defaults]) (by norm_num)]
    norm_num [defaults]
  rw [h1, h2]
  refine ⟨rfl, ?_, rfl, ?_⟩ <;> simp only [FComp.value] <;> norm_num

/-- C1 (amended): for a positive balance resistor and a non-zero code, with
`r = (adcMax + 1) / code - 1`, the upper resistor R1 (`calcR1` on a divider
whose balance resistor is R2, and `calcR1x`) is `balanceResistor * r`, and the
lower resistor R2 (`calcR2` on a divider whose balance resistor is R1, and
`calcR2x`) is `balanceResistor / r`, which has no finite value when `r = 0`. -/
theorem calcR_code_formula (d : vDivider) (code : Nat)
    (hb : d.balanceResistor > 0) (hc : code ≠ 0) :
    (calcR1_u16 { d with isR1 := false } code).value
      = some (d.balanceResistor * (((d.adcMax + 1 : Nat) : ℚ) / code - 1)) ∧
    (calcR1x_u16 d code).value
      = some (d.balanceResistor * (((d.adcMax + 1 : Nat) : ℚ) / code - 1)) ∧
    (calcR2_u16 { d with isR1 := true } code).value
      = (if ((d.adcMax + 1 : Nat) : ℚ) / code - 1 = 0 then none
         else some (d.balanceResistor / (((d.adcMax + 1 : Nat) : ℚ) / code - 1))) ∧
    (calcR2x_u16 d code).value
      = (if ((d.adcMax + 1 : Nat) : ℚ) / code - 1 = 0 then none
         else some (d.balanceResistor / (((d.adcMax + 1 : Nat) : ℚ) / code - 1))) := by
  have e1 : calcR1_u16 { d with isR1 := false } code = doCalcR1x_u16 d code := by
    show doCalcR1_u16 _ _ = _
    rw [doCalcR1_u16_of_isR2 _ _ rfl]
    rfl
  have e2 : calcR2_u16 { d with isR1 := true } code = doCalcR2x_u16 d code := by
    show doCalcR2_u16 _ _ = _
    rw [doCalcR2_u16_of_isR1 _ _ rfl]
    rfl
  have e3 : calcR1x_u16 d code = doCalcR1x_u16 d code := rfl
  have e4 : calcR2x_u16 d code = doCalcR2x_u16 d code := rfl
  rw [e1, e2, e3, e4, doCalcR1x_u16_eq d code hb hc, doCalcR2x_u16_eq d code hb hc]
  refine ⟨rfl, rfl, ?_, ?_⟩ <;> split_ifs <;> rfl

theorem calcR_code_formula_witness :
    (defaults 14 10000 true).balanceResistor > 0 ∧ (256 : Nat) ≠ 0 ∧
    (calcR1x_u16 (defaults 14 10000 true) 256).value = some 30000 ∧
    (calcR2x_u16 (defaults 14 10000 true) 256).value = some (10000 / 3) := by
  have h := calcR_code_formula (defaults 14 10000 true) 256 (by norm_num [defaults])
    (by norm_num)
  refine ⟨by norm_num [defaults], by norm_num, ?_, ?_⟩
  · rw [h.2.1]
    norm_num [defaults]
  · rw [h.2.2.2]
    norm_num [defaults]

/-- C2: the voltage forms invert the divider equation
`VOut = AVRef * R2 / (R1 + R2)`.  For `avRef > 0`, a positive balance resistor
and `0 < v < avRef`, `calcR2x(v)` has a value `R2` with
`v = avRef * R2 / (balanceResistor + R2)` and `calcR1x(v)` has a value `R1`
with `v = avRef * balanceResistor / (R1 + balanceResistor)`. -/
theorem calcRx_float_inverts_divider (d : vDivider) (v : ℚ)
    (ha : d.avRef > 0) (hb : d.balanceResistor > 0) (hv0 : 0 < v) (hv1 : v < d.avRef) :
    (∃ r2 : ℚ, (calcR2x_float d v).value = some r2 ∧ 0 < r2 ∧
      v = d.avRef * r2 / (d.balanceResistor + r2)) ∧
    (∃ r1 : ℚ, (calcR1x_float d v).value = some r1 ∧ 0 < r1 ∧
      v = d.avRef * d.balanceResistor / (r1 + d.balanceResistor)) := by
  have hv : v ≠ 0 := ne_of_gt hv0
  have hr : d.avRef / v - 1 = (d.avRef - v) / v := by field_simp
  have hpos : 0 < (d.avRef - v) / v := div_pos (by linarith) hv0
  have hd : d.avRef - v ≠ 0 := by linarith
  have hbne : d.balanceResistor ≠ 0 := ne_of_gt hb
  have hane : d.avRef ≠ 0 := ne_of_gt ha
  constructor
  · refine ⟨d.balanceResistor / (d.avRef / v - 1), ?_, ?_, ?_⟩
    · show (doCalcR2x_float d v).value = _
      rw [doCalcR2x_float_eq d v hb hv, if_neg (by rw [hr]; exact ne_of_gt hpos)]
      rfl
    · rw [hr]
      exact div_pos hb hpos
    · rw [hr]
      have hden : d.balanceResistor + d.balanceResistor / ((d.avRef - v) / v) ≠ 0 :=
        ne_of_gt (add_pos hb (div_pos hb hpos))
      rw [eq_div_iff hden]
      field_simp
      ring
  · refine ⟨d.balanceResistor * (d.avRef / v - 1), ?_, ?_, ?_⟩
    · show (doCalcR1x_float d v).value = _
      rw [doCalcR1x_float_eq d v hb hv]
      rfl
    · rw [hr]
      exact mul_pos hb hpos
    · rw [hr]
      have hden : d.balanceResistor * ((d.avRef - v) / v) + d.balanceResistor ≠ 0 :=
        ne_of_gt (add_pos (mul_pos hb hpos) hb)
      rw [eq_div_iff hden]
      field_simp
      ring

theorem calcRx_float_inverts_divider_witness :
    (defaults 14 10000 true).avRef > 0 ∧ (defaults 14 10000 true).balanceResistor > 0 ∧
    (0 : ℚ) < 11 / 10 ∧ (11 / 10 : ℚ) < (defaults 14 10000 true).avRef ∧
    (∃ r2 : ℚ, (calcR2x_float (defaults 14 10000 true) (11 / 10)).value = some r2 ∧ 0 < r2 ∧
      (11 / 10 : ℚ) = (defaults 14 10000 true).avRef * r2
        / ((defaults 14 10000 true).balanceResistor + r2)) ∧
    (∃ r1 : ℚ, (calcR1x_float (defaults 14 10000 true) (11 / 10)).value = some r1 ∧ 0 < r1 ∧
      (11 / 10 : ℚ) = (defaults 14 10000 true).avRef * (defaults 14 10000 true).balanceResistor
        / (r1 + (defaults 14 10000 true).balanceResistor)) :=
  ⟨by norm_num [defaults], by norm_num [defaults], by norm_num, by norm_num [defaults],
    calcRx_float_inverts_divider (defaults 14 10000 true) (11 / 10) (by norm_num [defaults])
      (by norm_num [defaults]) (by norm_num) (by norm_num [defaults])⟩

/-! ## Rounding -/

theorem roundHalfEven_intCast (k : Int) : roundHalfEven (k : ℚ) = k := by
  unfold roundHalfEven
  rw [Int.floor_intCast, sub_self, if_pos (by norm_num)]

theorem abs_roundHalfEven_sub_le (q : ℚ) : |(roundHalfEven q : ℚ) - q| ≤ 1 / 2 := by
  have h0 : 0 ≤ q - ⌊q⌋ := sub_nonneg.mpr (Int.floor_le q)
  have h1 : q - ⌊q⌋ < 1 := by linarith [Int.lt_floor_add_one q]
  unfold roundHalfEven
  rw [abs_le]
  split_ifs with ha hb hc
  · constructor <;> linarith
  · push_cast
    constructor <;> linarith
  · have : q - ⌊q⌋ = 1 / 2 := le_antisymm (not_lt.mp hb) (not_lt.mp ha)
    constructor <;> linarith
  · have : q - ⌊q⌋ = 1 / 2 := le_antisymm (not_lt.mp hb) (not_lt.mp ha)
    push_cast
    constructor <;> linarith

/-- A number `a * 2 ^ z` whose significand `a` has at most `p` bits is its own
rounding. -/
theorem roundFloat_exact (p a : Nat) (z : Int) (ha : a < 2 ^ p) :
    roundFloat p ((a : ℚ) * (2 : ℚ) ^ z) = (a : ℚ) * (2 : ℚ) ^ z := by
  have h2 : (0 : ℚ) < 2 := by norm_num
  have h2ne : (2 : ℚ) ≠ 0 := by norm_num
  rcases Nat.eq_zero_or_pos a with h0 | hpos
  · subst h0
    simp [roundFloat]
  have haq : (0 : ℚ) < (a : ℚ) := by exact_mod_cast hpos
  have hq : (0 : ℚ) < (a : ℚ) * (2 : ℚ) ^ z := mul_pos haq (zpow_pos h2 z)
  have hqne : (a : ℚ) * (2 : ℚ) ^ z ≠ 0 := ne_of_gt hq
  unfold roundFloat
  rw [if_neg hqne, abs_of_pos hq]
  have hle : ((2 : ℕ) : ℚ) ^ Int.log 2 ((a : ℚ) * (2 : ℚ) ^ z) ≤ (a : ℚ) * (2 : ℚ) ^ z :=
    Int.zpow_log_le_self (by norm_num) hq
  have halt : (a : ℚ) < (2 : ℚ) ^ (p : Int) := by
    rw [zpow_natCast]
    exact_mod_cast ha
  have hj : 0 ≤ z - Int.log 2 ((a : ℚ) * (2 : ℚ) ^ z) + (p : Int) - 1 := by
    by_contra hneg
    push_neg at hneg
    have hge : z + (p : Int) ≤ Int.log 2 ((a : ℚ) * (2 : ℚ) ^ z) := by omega
    have h1 : (2 : ℚ) ^ (z + (p : Int)) ≤ (2 : ℚ) ^ Int.log 2 ((a : ℚ) * (2 : ℚ) ^ z) :=
      zpow_le_zpow_right₀ (by norm_num) hge
    have h3 : (a : ℚ) * (2 : ℚ) ^ z < (2 : ℚ) ^ (z + (p : Int)) := by
      rw [zpow_add₀ h2ne, mul_comm ((2 : ℚ) ^ z)]
      exact mul_lt_mul_of_pos_right halt (zpow_pos h2 z)
    have h4 : (2 : ℚ) ^ Int.log 2 ((a : ℚ) * (2 : ℚ) ^ z) ≤ (a : ℚ) * (2 : ℚ) ^ z := by
      exact_mod_cast hle
    linarith
  obtain ⟨j, hjz⟩ := Int.eq_ofNat_of_zero_le hj
  have hquot : (a : ℚ) * (2 : ℚ) ^ z
      / (2 : ℚ) ^ (Int.log 2 ((a : ℚ) * (2 : ℚ) ^ z) - (p : Int) + 1)
      = (((a * 2 ^ j : Nat) : Int) : ℚ) := by
    have hz : z = (j : Int) + (Int.log 2 ((a : ℚ) * (2 : ℚ) ^ z) - (p : Int) + 1) := by omega
    rw [div_eq_iff (zpow_ne_zero _ h2ne)]
    conv_lhs => rw [hz]
    rw [zpow_add₀ h2ne, zpow_natCast]
    push_cast
    ring
  rw [hquot, roundHalfEven_intCast, ← hquot, div_mul_cancel₀ _ (zpow_ne_zero _ h2ne)]

/-- The relative error of a rounding to `p` bits is at most `2 ^ (-p)`. -/
theorem roundFloat_error (p : Nat) (q : ℚ) (hq : 0 < q) :
    |roundFloat p q - q| ≤ q / (2 : ℚ) ^ p := by
  have h2 : (0 : ℚ) < 2 := by norm_num
  have h2ne : (2 : ℚ) ≠ 0 := by norm_num
  unfold roundFloat
  rw [if_neg (ne_of_gt hq), abs_of_pos hq]
  have hu : (0 : ℚ) < (2 : ℚ) ^ (Int.log 2 q - (p : Int) + 1) := zpow_pos h2 _
  have hle : (2 : ℚ) ^ Int.log 2 q ≤ q := by
    have := Int.zpow_log_le_self (R := ℚ) (b := 2) (by norm_num) hq
    exact_mod_cast this
  have hr := abs_roundHalfEven_sub_le (q / (2 : ℚ) ^ (Int.log 2 q - (p : Int) + 1))
  have heq : (roundHalfEven (q / (2 : ℚ) ^ (Int.log 2 q - (p : Int) + 1)) : ℚ)
      * (2 : ℚ) ^ (Int.log 2 q - (p : Int) + 1) - q
      = ((roundHalfEven (q / (2 : ℚ) ^ (Int.log 2 q - (p : Int) + 1)) : ℚ)
          - q / (2 : ℚ) ^ (Int.log 2 q - (p : Int) + 1))
        * (2 : ℚ) ^ (Int.log 2 q - (p : Int) + 1) := by
    rw [sub_mul, div_mul_cancel₀ _ (ne_of_gt hu)]
  rw [heq, abs_mul, abs_of_pos hu]
  have hhalf : (2 : ℚ) ^ (Int.log 2 q - (p : Int) + 1) = 2 * ((2 : ℚ) ^ Int.log 2 q / 2 ^ p) := by
    rw [show Int.log 2 q - (p : Int) + 1 = Int.log 2 q + (-(p : Int)) + 1 by ring,
      zpow_add₀ h2ne, zpow_add₀ h2ne, zpow_neg, zpow_natCast, zpow_one]
    field_simp
    ring
  have hp : (0 : ℚ) < (2 : ℚ) ^ p := pow_pos h2 p
  calc |(roundHalfEven (q / (2 : ℚ) ^ (Int.log 2 q - (p : Int) + 1)) : ℚ)
          - q / (2 : ℚ) ^ (Int.log 2 q - (p : Int) + 1)|
        * (2 : ℚ) ^ (Int.log 2 q - (p : Int) + 1)
      ≤ 1 / 2 * (2 : ℚ) ^ (Int.log 2 q - (p : Int) + 1) :=
        mul_le_mul_of_nonneg_right hr (le_of_lt hu)
    _ = (2 : ℚ) ^ Int.log 2 q / 2 ^ p := by rw [hhalf]; ring
    _ ≤ q / 2 ^ p := div_le_div_of_nonneg_right hle (le_of_lt hp)

theorem toFloat_half (a : Nat) (h : a < 2 ^ 24) : toFloat ((a : ℚ) / 2) = (a : ℚ) / 2 := by
  have := roundFloat_exact 24 a (-1) h
  rw [show (a : ℚ) * (2 : ℚ) ^ (-1 : Int) = (a : ℚ) / 2 by
    rw [zpow_neg_one, div_eq_mul_inv]] at this
  exact this

theorem toDouble_half (a : Nat) (h : a < 2 ^ 53) : toDouble ((a : ℚ) / 2) = (a : ℚ) / 2 := by
  have := roundFloat_exact 53 a (-1) h
  rw [show (a : ℚ) * (2 : ℚ) ^ (-1 : Int) = (a : ℚ) / 2 by
    rw [zpow_neg_one, div_eq_mul_inv]] at this
  exact this

theorem toDouble_nat (a : Nat) (h : a < 2 ^ 53) : toDouble (a : ℚ) = (a : ℚ) := by
  have := roundFloat_exact 53 a 0 h
  rw [zpow_zero, mul_one] at this
  exact this

/-! ## Sampling -/

/-- While the doubled total stays below `2 ^ 24` the `float` accumulator holds
the exact sum of the biased readings. -/
theorem accumulate_eq (adc : Nat → Nat) (k t a : Nat)
    (h : a + 2 * ((List.range k).map fun i => adc (t + i)).sum + k < 2 ^ 24) :
    accumulate adc k t ((a : ℚ) / 2) =
      ((a : ℚ) / 2 + ((List.range k).map fun i => (adc (t + i) : ℚ) + 1 / 2).sum, t + k) := by
  induction k generalizing t a with
  | zero => simp [accumulate]
  | succ k ih =>
    rw [List.range_succ_eq_map, List.map_cons, List.sum_cons, List.map_map] at h
    have hf : ((fun i => adc (t + i)) ∘ Nat.succ) = fun i => adc (t + 1 + i) := by
      funext i
      simp only [Function.comp, Nat.succ_eq_add_one]
      rw [show t + (i + 1) = t + 1 + i by omega]
    rw [hf, Nat.add_zero] at h
    have hx : (adc t : ℚ) + 1 / 2 = ((2 * adc t + 1 : Nat) : ℚ) / 2 := by
      push_cast
      ring
    have hs : (a : ℚ) / 2 + ((2 * adc t + 1 : Nat) : ℚ) / 2
        = ((a + (2 * adc t + 1) : Nat) : ℚ) / 2 := by
      push_cast
      ring
    rw [accumulate, hx, toDouble_half _ (by omega), hs, toDouble_half _ (by omega),
      toFloat_half _ (by omega), ih (t + 1) (a + (2 * adc t + 1)) (by omega),
      List.range_succ_eq_map, List.map_cons, List.sum_cons, List.map_map]
    have hg : ((fun i => (adc (t + i) : ℚ) + 1 / 2) ∘ Nat.succ)
        = fun i => (adc (t + 1 + i) : ℚ) + 1 / 2 := by
      funext i
      simp only [Function.comp, Nat.succ_eq_add_one]
      rw [show t + (i + 1) = t + 1 + i by omega]
    rw [hg]
    simp only [Nat.add_zero, Prod.mk.injEq]
    constructor
    · push_cast
      ring
    · omega

/-- The accumulator depends on the readings taken only. -/
theorem accumulate_congr (adc adc2 : Nat → Nat) (k t : Nat) (total : ℚ)
    (h : ∀ i, i < k → adc (t + i) = adc2 (t + i)) :
    accumulate adc k t total = accumulate adc2 k t total := by
  induction k generalizing t total with
  | zero => rfl
  | succ k ih =>
    have h0 : adc t = adc2 t := h 0 (Nat.succ_pos k)
    rw [accumulate, accumulate, h0]
    apply ih
    intro i hi
    have := h (i + 1) (Nat.succ_lt_succ hi)
    rw [show t + (i + 1) = t + 1 + i by omega] at this
    exact this

theorem sum_biased (xs : List Nat) :
    (xs.map fun (x : Nat) => (x : ℚ) + 1 / 2).sum = ((xs.sum : Nat) : ℚ) + (xs.length : ℚ) / 2 := by
  induction xs with
  | nil => simp
  | cons x xs ih =>
    simp only [List.map_cons, List.sum_cons, List.length_cons, ih]
    push_cast
    ring

theorem biasedMean_eq (xs : List Nat) (h : xs ≠ []) : biasedMean xs = mean xs + 1 := by
  have hl : (xs.length : ℚ) ≠ 0 := by
    have : xs.length ≠ 0 := fun h0 => h (List.length_eq_zero.mp h0)
    exact_mod_cast this
  unfold biasedMean mean
  rw [sum_biased]
  field_simp
  ring

theorem truncate_of_nonneg {q : ℚ} (h : 0 ≤ q) : truncate q = ⌊q⌋ := by
  simp [truncate, h]

theorem mean_nonneg (xs : List Nat) : 0 ≤ mean xs := by
  unfold mean
  positivity

theorem floor_mean (xs : List Nat) : ⌊mean xs⌋ = ((xs.sum / xs.length : Nat) : Int) := by
  unfold mean
  rw [Rat.floor_natCast_div_natCast]
  norm_cast

theorem truncate_biasedMean (xs : List Nat) (h : xs ≠ []) :
    truncate (biasedMean xs) = ((xs.sum / xs.length + 1 : Nat) : Int) := by
  rw [biasedMean_eq xs h, truncate_of_nonneg (by linarith [mean_nonneg xs]), Int.floor_add_one,
    floor_mean]
  norm_cast

theorem samplesTaken_length (d : vDivider) (adc : Nat → Nat) (t : Nat) :
    (samplesTaken d adc t).length = d.samples := by
  simp [samplesTaken]

/-- The rounded quotient of an exact total: with `2 * s + n < 2 ^ 24` the
`float` division and the `double` sum with `0.5` truncate to `s / n + 1`. -/
theorem truncate_rounded_quotient (s n : Nat) (hn : 1 ≤ n) (hx : 2 * s + n < 2 ^ 24) :
    truncate (toDouble (toFloat (((s : ℚ) + (n : ℚ) / 2) / (n : ℚ)) + 1 / 2))
      = ((s / n + 1 : Nat) : Int) := by
  have hnq : (0 : ℚ) < (n : ℚ) := by exact_mod_cast hn
  have hnne : (n : ℚ) ≠ 0 := ne_of_gt hnq
  have hdm : n * (s / n) + s % n = s := Nat.div_add_mod s n
  have hdmq : (s : ℚ) = (n : ℚ) * ((s / n : Nat) : ℚ) + ((s % n : Nat) : ℚ) := by
    exact_mod_cast hdm.symm
  have hkle : s / n ≤ s := Nat.div_le_self s n
  have hq : ((s : ℚ) + (n : ℚ) / 2) / (n : ℚ)
      = ((s / n : Nat) : ℚ) + 1 / 2 + ((s % n : Nat) : ℚ) / (n : ℚ) := by
    rw [hdmq]
    field_simp
    ring
  have hfloor : ∀ w : ℚ, ((s / n + 1 : Nat) : ℚ) ≤ w → w < ((s / n + 1 : Nat) : ℚ) + 1 →
      truncate w = ((s / n + 1 : Nat) : Int) := by
    intro w h1 h2
    have hw0 : 0 ≤ w := le_trans (Nat.cast_nonneg _) h1
    rw [truncate_of_nonneg hw0, Int.floor_eq_iff]
    exact ⟨by exact_mod_cast h1, by exact_mod_cast h2⟩
  rcases Nat.eq_zero_or_pos (s % n) with hr0 | hrpos
  · -- the quotient is a half-integer and is represented exactly
    have hq2 : ((s : ℚ) + (n : ℚ) / 2) / (n : ℚ) = ((2 * (s / n) + 1 : Nat) : ℚ) / 2 := by
      rw [hq, hr0]
      push_cast
      ring
    rw [hq2, toFloat_half _ (by omega)]
    have hsum : ((2 * (s / n) + 1 : Nat) : ℚ) / 2 + 1 / 2 = ((s / n + 1 : Nat) : ℚ) := by
      push_cast
      ring
    rw [hsum, toDouble_nat _ (by omega)]
    exact hfloor _ (le_refl _) (by linarith)
  · -- the quotient is at least 1/n away from both ends and the roundings move it less
    have hqpos : (0 : ℚ) < ((s : ℚ) + (n : ℚ) / 2) / (n : ℚ) := by positivity
    have he1 := roundFloat_error 24 _ hqpos
    have hrlt : s % n < n := Nat.mod_lt s hn
    have hr1 : (1 : ℚ) / (n : ℚ) ≤ ((s % n : Nat) : ℚ) / (n : ℚ) := by
      apply div_le_div_of_nonneg_right _ (le_of_lt hnq)
      exact_mod_cast hrpos
    have hr2 : ((s % n : Nat) : ℚ) / (n : ℚ) ≤ 1 - 1 / (n : ℚ) := by
      rw [one_sub_div hnne]
      apply div_le_div_of_nonneg_right _ (le_of_lt hnq)
      have : s % n + 1 ≤ n := hrlt
      have hc : ((s % n : Nat) : ℚ) + 1 ≤ (n : ℚ) := by exact_mod_cast this
      linarith
    -- the error of the `float` division is below 1 / (2 n)
    have hb1 : ((s : ℚ) + (n : ℚ) / 2) / (n : ℚ) / (2 : ℚ) ^ 24 < 1 / (n : ℚ) / 2 := by
      have hlt : (2 : ℚ) * (s : ℚ) + (n : ℚ) < (2 : ℚ) ^ 24 := by exact_mod_cast hx
      rw [div_div, div_lt_iff₀ (by positivity), div_div, div_mul_eq_mul_div,
        lt_div_iff₀ (by positivity)]
      nlinarith
    have hv := abs_lt.mp (lt_of_le_of_lt he1 hb1)
    change -(1 / (n : ℚ) / 2) < toFloat (((s : ℚ) + (n : ℚ) / 2) / (n : ℚ))
        - ((s : ℚ) + (n : ℚ) / 2) / (n : ℚ) ∧ _ at hv
    obtain ⟨hv1, hv2⟩ := hv
    change toFloat (((s : ℚ) + (n : ℚ) / 2) / (n : ℚ))
        - ((s : ℚ) + (n : ℚ) / 2) / (n : ℚ) < 1 / (n : ℚ) / 2 at hv2
    have hnpos : (0 : ℚ) < 1 / (n : ℚ) := by positivity
    have hu1 : ((s / n + 1 : Nat) : ℚ) + 1 / (n : ℚ) / 2
        < toFloat (((s : ℚ) + (n : ℚ) / 2) / (n : ℚ)) + 1 / 2 := by
      push_cast
      linarith
    have hu2 : toFloat (((s : ℚ) + (n : ℚ) / 2) / (n : ℚ)) + 1 / 2
        < ((s / n + 1 : Nat) : ℚ) + 1 - 1 / (n : ℚ) / 2 := by
      push_cast
      linarith
    have hupos : (0 : ℚ) < toFloat (((s : ℚ) + (n : ℚ) / 2) / (n : ℚ)) + 1 / 2 := by
      have : (0 : ℚ) ≤ ((s / n + 1 : Nat) : ℚ) := Nat.cast_nonneg _
      linarith
    have he2 := roundFloat_error 53 _ hupos
    -- the error of the `double` sum is below 1 / (2 n)
    have hb2 : (toFloat (((s : ℚ) + (n : ℚ) / 2) / (n : ℚ)) + 1 / 2) / (2 : ℚ) ^ 53
        < 1 / (n : ℚ) / 2 := by
      have hk : ((s / n + 1 : Nat) : ℚ) + 1 ≤ (2 : ℚ) ^ 24 := by
        have : s / n + 1 + 1 ≤ 2 ^ 24 := by omega
        exact_mod_cast this
      have hn24 : (n : ℚ) ≤ (2 : ℚ) ^ 24 := by
        have : n ≤ 2 ^ 24 := by omega
        exact_mod_cast this
      have hult : toFloat (((s : ℚ) + (n : ℚ) / 2) / (n : ℚ)) + 1 / 2 < (2 : ℚ) ^ 24 := by
        have : (0 : ℚ) < 1 / (n : ℚ) / 2 := by positivity
        linarith
      rw [div_lt_iff₀ (by positivity), div_div, div_mul_eq_mul_div, lt_div_iff₀ (by positivity)]
      calc (toFloat (((s : ℚ) + (n : ℚ) / 2) / (n : ℚ)) + 1 / 2) * ((n : ℚ) * 2)
          < (2 : ℚ) ^ 24 * ((n : ℚ) * 2) := mul_lt_mul_of_pos_right hult (by positivity)
        _ ≤ (2 : ℚ) ^ 24 * ((2 : ℚ) ^ 24 * 2) := by
            apply mul_le_mul_of_nonneg_left _ (by positivity)
            linarith
        _ ≤ 1 * (2 : ℚ) ^ 53 := by norm_num
    have hw := abs_lt.mp (lt_of_le_of_lt he2 hb2)
    change -(1 / (n : ℚ) / 2) < toDouble (toFloat (((s : ℚ) + (n : ℚ) / 2) / (n : ℚ)) + 1 / 2)
        - (toFloat (((s : ℚ) + (n : ℚ) / 2) / (n : ℚ)) + 1 / 2) ∧ _ at hw
    obtain ⟨hw1, hw2⟩ := hw
    change toDouble (toFloat (((s : ℚ) + (n : ℚ) / 2) / (n : ℚ)) + 1 / 2)
        - (toFloat (((s : ℚ) + (n : ℚ) / 2) / (n : ℚ)) + 1 / 2) < 1 / (n : ℚ) / 2 at hw2
    exact hfloor _ (by linarith) (by linarith)

theorem samplesTaken_ne_nil (d : vDivider) (adc : Nat → Nat) (t : Nat) (hn : 1 ≤ d.samples) :
    samplesTaken d adc t ≠ [] := by
  intro h0
  have h := samplesTaken_length d adc t
  rw [h0, List.length_nil] at h
  omega

/-- The result of `readADC` in closed form, for readings whose biased sum
stays in the range where the `float` accumulator is exact. -/
theorem readADC_eq (d : vDivider) (adc : Nat → Nat) (t : Nat) (hn : 1 ≤ d.samples)
    (hx : 2 * (samplesTaken d adc t).sum + d.samples < 2 ^ 24) :
    readADC d adc t =
      (if truncate (biasedMean (samplesTaken d adc t)) < 65536
        then some ((truncate (biasedMean (samplesTaken d adc t))).toNat, 1) else none,
       firstSample d t + d.samples) := by
  have hne := samplesTaken_ne_nil d adc t hn
  have hs : (d.samples : ℚ) ≠ 0 := by
    have : d.samples ≠ 0 := by omega
    exact_mod_cast this
  have hacc : accumulate adc d.samples (firstSample d t) 0
      = (((samplesTaken d adc t).sum : ℚ) + (d.samples : ℚ) / 2, firstSample d t + d.samples) := by
    have h0 : (0 : ℚ) = ((0 : Nat) : ℚ) / 2 := by norm_num
    rw [h0, accumulate_eq adc d.samples (firstSample d t) 0
      (by simpa [samplesTaken] using hx)]
    have hb := sum_biased (samplesTaken d adc t)
    rw [samplesTaken_length] at hb
    unfold samplesTaken at hb
    rw [List.map_map] at hb
    unfold samplesTaken
    rw [Prod.mk.injEq]
    refine ⟨?_, rfl⟩
    rw [Nat.cast_zero, zero_div, zero_add]
    exact hb
  have htr := truncate_rounded_quotient (samplesTaken d adc t).sum d.samples hn hx
  have htb := truncate_biasedMean (samplesTaken d adc t) hne
  rw [samplesTaken_length] at htb
  unfold readADC
  rw [show (if d.adcReadyDelay > 0 then t + 1 else t) = firstSample d t from rfl]
  simp only [hacc, fdiv_of_ne _ hs, FComp.bind_eq, FComp.andThen, Prod.mk.injEq, and_true]
  unfold toUInt16
  rw [htr, htb]
  have hnn : (0 : Int) ≤ (((samplesTaken d adc t).sum / d.samples + 1 : Nat) : Int) :=
    Int.natCast_nonneg _
  by_cases hfit : (((samplesTaken d adc t).sum / d.samples + 1 : Nat) : Int) < 65536
  · rw [if_pos ⟨hnn, hfit⟩, if_pos hfit]
    rfl
  · rw [if_neg fun h => hfit h.2, if_neg hfit]
    rfl

/-- The averaged code is the integer quotient of the sum of the readings by
their number, plus one, when that fits sixteen bits and the `float`
accumulator is exact. -/
theorem readADC_value (d : vDivider) (adc : Nat → Nat) (t : Nat) (hn : 1 ≤ d.samples)
    (hx : 2 * (samplesTaken d adc t).sum + d.samples < 2 ^ 24) :
    (readADC d adc t).1.value =
      if (samplesTaken d adc t).sum / d.samples + 1 < 65536
        then some ((samplesTaken d adc t).sum / d.samples + 1) else none := by
  have hne := samplesTaken_ne_nil d adc t hn
  rw [readADC_eq d adc t hn hx, truncate_biasedMean _ hne, samplesTaken_length]
  by_cases h : (samplesTaken d adc t).sum / d.samples + 1 < 65536
  · have h2 : (((samplesTaken d adc t).sum / d.samples + 1 : Nat) : Int) < 65536 := by
      exact_mod_cast h
    rw [if_pos h, if_pos h2]
    simp only [FComp.value, Int.toNat_natCast]
  · have h2 : ¬ (((samplesTaken d adc t).sum / d.samples + 1 : Nat) : Int) < 65536 := by
      intro h3
      exact h (by exact_mod_cast h3)
    rw [if_neg h, if_neg h2]
    rfl

/-- The result of `readADC` depends on the readings taken after the warm-up
read only. -/
theorem readADC_congr (d : vDivider) (adc adc2 : Nat → Nat) (t : Nat)
    (h : samplesTaken d adc2 t = samplesTaken d adc t) :
    readADC d adc2 t = readADC d adc t := by
  have hpt : ∀ i, i < d.samples → adc2 (firstSample d t + i) = adc (firstSample d t + i) := by
    intro i hi
    have h1 : (samplesTaken d adc2 t)[i]? = (samplesTaken d adc t)[i]? := by rw [h]
    simpa [samplesTaken, hi] using h1
  unfold readADC
  dsimp only
  rw [show (if d.adcReadyDelay > 0 then t + 1 else t) = firstSample d t from rfl,
    accumulate_congr adc2 adc d.samples (firstSample d t) 0 hpt]

/-- The biased sum of the readings in natural numbers. -/
theorem biased_sum_lt_iff (xs : List Nat) :
    (xs.map fun (x : Nat) => (x : ℚ) + 1 / 2).sum < 8388608 ↔ 2 * xs.sum + xs.length < 2 ^ 24 := by
  rw [sum_biased]
  generalize xs.sum = s
  generalize xs.length = n
  constructor
  · intro h
    have h2 : ((2 * s + n : Nat) : ℚ) < ((2 ^ 24 : Nat) : ℚ) := by
      push_cast
      linarith
    exact_mod_cast h2
  · intro h
    have h2 : ((2 * s + n : Nat) : ℚ) < ((2 ^ 24 : Nat) : ℚ) := by
      exact_mod_cast h
    push_cast at h2
    linarith

/-- C3 (as stated, refuted): one reading of 65535 taken without warm-up gives
the truncation 65536, which `readADC` cannot return in a `uint16_t`. -/
theorem readADC_full_scale_undefined :
    1 ≤ ((defaults 14 10000 true).setConsts 1 1 0 (33 / 10) 65535).samples ∧
    samplesTaken ((defaults 14 10000 true).setConsts 1 1 0 (33 / 10) 65535)
      (fun _ => 65535) 0 = [65535] ∧
    truncate (biasedMean [65535]) = 65536 ∧
    (readADC ((defaults 14 10000 true).setConsts 1 1 0 (33 / 10) 65535)
      (fun _ => 65535) 0).1.value = none := by
  have hs : samplesTaken ((defaults 14 10000 true).setConsts 1 1 0 (33 / 10) 65535)
      (fun _ => 65535) 0 = [65535] := by
    simp [samplesTaken, setConsts, defaults, List.range_succ]
  refine ⟨by simp [setConsts], hs, ?_, ?_⟩
  · rw [truncate_biasedMean _ (by simp)]
    simp
  · rw [readADC_value _ _ _ (by simp [setConsts]) (by rw [hs]; simp [setConsts]), hs]
    simp [setConsts]

/-- C3 (amended): for `samples ≥ 1` and the readings `xs` taken after the
optional warm-up read, whenever the sum of the `x + 0.5` is below `2 ^ 23`
(where the `float` accumulator holds it exactly) and the integer truncation of
`(sum of (x + 0.5)) / n + 0.5` is below 65536, `readADC` returns that
truncation; any input that delivers the same readings after the warm-up read,
whatever the warm-up reading, gives the same result. -/
theorem readADC_truncated_biased_mean (d : vDivider) (adc : Nat → Nat) (t : Nat)
    (xs : List Nat) (hn : 1 ≤ d.samples) (hxs : samplesTaken d adc t = xs)
    (hexact : (xs.map fun (x : Nat) => (x : ℚ) + 1 / 2).sum < 8388608)
    (hfit : truncate (biasedMean xs) < 65536) :
    (∃ c : Nat, (readADC d adc t).1.value = some c ∧ (c : Int) = truncate (biasedMean xs)) ∧
    (∀ adc2 : Nat → Nat, samplesTaken d adc2 t = xs → readADC d adc2 t = readADC d adc t) := by
  have hne : xs ≠ [] := hxs ▸ samplesTaken_ne_nil d adc t hn
  have hlen : xs.length = d.samples := hxs ▸ samplesTaken_length d adc t
  have hx : 2 * (samplesTaken d adc t).sum + d.samples < 2 ^ 24 := by
    rw [hxs, ← hlen]
    exact (biased_sum_lt_iff xs).mp hexact
  constructor
  · refine ⟨(truncate (biasedMean xs)).toNat, ?_, ?_⟩
    · rw [readADC_eq d adc t hn hx, hxs, if_pos hfit]
      rfl
    · rw [Int.toNat_of_nonneg]
      rw [truncate_biasedMean _ hne]
      exact Int.natCast_nonneg _
  · intro adc2 h2
    exact readADC_congr d adc adc2 t (h2.trans hxs.symm)

theorem readADC_truncated_biased_mean_witness :
    1 ≤ (defaults 14 10000 true).samples ∧
    samplesTaken (defaults 14 10000 true) (fun i => if i = 0 then 900 else 511) 0
      = List.replicate 16 511 ∧
    ((List.replicate 16 511).map fun (x : Nat) => (x : ℚ) + 1 / 2).sum < 8388608 ∧
    truncate (biasedMean (List.replicate 16 511)) < 65536 ∧
    (∃ c : Nat, (readADC (defaults 14 10000 true) (fun i => if i = 0 then 900 else 511) 0).1.value
        = some c ∧ (c : Int) = truncate (biasedMean (List.replicate 16 511))) ∧
    (∀ adc2 : Nat → Nat, samplesTaken (defaults 14 10000 true) adc2 0 = List.replicate 16 511 →
      readADC (defaults 14 10000 true) adc2 0
        = readADC (defaults 14 10000 true) (fun i => if i = 0 then 900 else 511) 0) := by
  have hs : samplesTaken (defaults 14 10000 true) (fun i => if i = 0 then 900 else 511) 0
      = List.replicate 16 511 := by
    simp [samplesTaken, firstSample, defaults, List.range_succ, List.replicate]
  have hfit : truncate (biasedMean (List.replicate 16 511)) < 65536 := by
    rw [truncate_biasedMean _ (by simp [List.replicate])]
    simp [List.replicate]
  have hexact : ((List.replicate 16 511).map fun (x : Nat) => (x : ℚ) + 1 / 2).sum
      < 8388608 := by
    rw [biased_sum_lt_iff]
    simp [List.replicate]
  exact ⟨by simp [defaults], hs, hexact, hfit,
    readADC_truncated_biased_mean (defaults 14 10000 true) (fun i => if i = 0 then 900 else 511)
      0 (List.replicate 16 511) (by simp [defaults]) hs hexact hfit⟩

theorem sum_le_of_forall_le (xs : List Nat) (m : Nat) (h : ∀ x ∈ xs, x ≤ m) :
    xs.sum ≤ xs.length * m := by
  induction xs with
  | nil => simp
  | cons x xs ih =>
    have hx : x ≤ m := h x (List.mem_cons_self x xs)
    have hrest : xs.sum ≤ xs.length * m := ih fun y hy => h y (List.mem_cons_of_mem x hy)
    simp only [List.sum_cons, List.length_cons, Nat.add_mul, Nat.one_mul]
    omega

theorem sum_div_le_of_forall_le (xs : List Nat) (m : Nat) (h : ∀ x ∈ xs, x ≤ m) :
    xs.sum / xs.length ≤ m := by
  have hsum : xs.sum ≤ xs.length * m := by
    induction xs with
    | nil => simp
    | cons x xs ih =>
      have hx : x ≤ m := h x (List.mem_cons_self x xs)
      have hrest : xs.sum ≤ xs.length * m := ih fun y hy => h y (List.mem_cons_of_mem x hy)
      simp only [List.sum_cons, List.length_cons, Nat.add_mul, Nat.one_mul]
      omega
  exact Nat.div_le_of_le_mul hsum

theorem sum_div_of_forall_eq (xs : List Nat) (x : Nat) (hne : xs ≠ [])
    (h : ∀ y ∈ xs, y = x) : xs.sum / xs.length = x := by
  have hsum : xs.sum = xs.length * x := by
    induction xs with
    | nil => simp
    | cons y ys ih =>
      have hy : y = x := h y (List.mem_cons_self y ys)
      simp only [List.sum_cons, List.length_cons, Nat.add_mul, Nat.one_mul]
      by_cases hys : ys = []
      · subst hys
        simp [hy]
      · rw [ih hys fun z hz => h z (List.mem_cons_of_mem y hz), hy]
        omega
  have hl : 0 < xs.length := List.length_pos.mpr hne
  rw [hsum, Nat.mul_div_cancel_left _ hl]

/-- C4 (as stated, refuted): with `adcMax = 1023` one reading of 1023, inside
`[0, adcMax]`, is averaged to the code 1024, outside `[0, adcMax]`. -/
theorem readADC_exceeds_adcMax :
    1 ≤ ((defaults 14 10000 true).setConsts 1 1 0 (33 / 10) 1023).samples ∧
    (∀ x ∈ samplesTaken ((defaults 14 10000 true).setConsts 1 1 0 (33 / 10) 1023)
      (fun _ => 1023) 0, x ≤ ((defaults 14 10000 true).setConsts 1 1 0 (33 / 10) 1023).adcMax) ∧
    (readADC ((defaults 14 10000 true).setConsts 1 1 0 (33 / 10) 1023)
      (fun _ => 1023) 0).1.value = some 1024 ∧
    ¬ (1024 ≤ ((defaults 14 10000 true).setConsts 1 1 0 (33 / 10) 1023).adcMax) := by
  have hs : samplesTaken ((defaults 14 10000 true).setConsts 1 1 0 (33 / 10) 1023)
      (fun _ => 1023) 0 = [1023] := by
    simp [samplesTaken, setConsts, defaults, List.range_succ]
  refine ⟨by simp [setConsts], ?_, ?_, by simp [setConsts]⟩
  · rw [hs]
    simp [setConsts]
  · rw [readADC_value _ _ _ (by simp [setConsts]) (by rw [hs]; simp [setConsts]), hs]
    simp [setConsts]

/-- C4 (amended): for `samples ≥ 1`, `adcMax ≤ 65534`,
`samples * (adcMax + 0.5) < 2 ^ 23` (so that the `float` accumulator is exact)
and readings that each lie in `[0, adcMax]`, `readADC` returns a code in
`[1, adcMax + 1]`. -/
theorem readADC_range (d : vDivider) (adc : Nat → Nat) (t : Nat)
    (hn : 1 ≤ d.samples) (hmax : d.adcMax ≤ 65534)
    (hexact : (d.samples : ℚ) * ((d.adcMax : ℚ) + 1 / 2) < 8388608)
    (hx : ∀ x ∈ samplesTaken d adc t, x ≤ d.adcMax) :
    ∃ c : Nat, (readADC d adc t).1.value = some c ∧ 1 ≤ c ∧ c ≤ d.adcMax + 1 := by
  have hle := sum_div_le_of_forall_le (samplesTaken d adc t) d.adcMax hx
  rw [samplesTaken_length] at hle
  have hsum := sum_le_of_forall_le (samplesTaken d adc t) d.adcMax hx
  rw [samplesTaken_length] at hsum
  have hnat : d.samples * (2 * d.adcMax + 1) < 2 ^ 24 := by
    have h2 : ((d.samples * (2 * d.adcMax + 1) : Nat) : ℚ) < ((2 ^ 24 : Nat) : ℚ) := by
      push_cast
      linarith
    exact_mod_cast h2
  have hx2 : 2 * (samplesTaken d adc t).sum + d.samples < 2 ^ 24 := by
    have : 2 * (samplesTaken d adc t).sum + d.samples ≤ d.samples * (2 * d.adcMax + 1) := by
      rw [Nat.mul_add, Nat.mul_one, ← Nat.mul_assoc, Nat.mul_comm d.samples 2, Nat.mul_assoc]
      omega
    omega
  have hfit : (samplesTaken d adc t).sum / d.samples + 1 < 65536 :=
    Nat.lt_of_le_of_lt (Nat.succ_le_succ hle) (by omega)
  refine ⟨(samplesTaken d adc t).sum / d.samples + 1, ?_, Nat.le_add_left 1 _,
    Nat.succ_le_succ hle⟩
  rw [readADC_value d adc t hn hx2, if_pos hfit]

theorem readADC_range_witness :
    1 ≤ (defaults 14 10000 true).samples ∧ (defaults 14 10000 true).adcMax ≤ 65534 ∧
    ((defaults 14 10000 true).samples : ℚ) * (((defaults 14 10000 true).adcMax : ℚ) + 1 / 2)
      < 8388608 ∧
    (∀ x ∈ samplesTaken (defaults 14 10000 true) (fun i => 1000 + i) 0,
      x ≤ (defaults 14 10000 true).adcMax) ∧
    (∃ c : Nat, (readADC (defaults 14 10000 true) (fun i => 1000 + i) 0).1.value = some c ∧
      1 ≤ c ∧ c ≤ (defaults 14 10000 true).adcMax + 1) := by
  have hx : ∀ x ∈ samplesTaken (defaults 14 10000 true) (fun i => 1000 + i) 0,
      x ≤ (defaults 14 10000 true).adcMax := by
    simp [samplesTaken, firstSample, defaults, List.range_succ]
  exact ⟨by simp [defaults], by simp [defaults], by norm_num [defaults], hx,
    readADC_range (defaults 14 10000 true) (fun i => 1000 + i) 0 (by simp [defaults])
      (by simp [defaults]) (by norm_num [defaults]) hx⟩

/-- C5 (as stated, refuted): a single reading of 5 has mean 5 and
`floor (mean + 1/2) = 5`, but `readADC` returns 6. -/
theorem readADC_single_reading_not_returned :
    1 ≤ ((defaults 14 10000 true).setConsts 1 1 0 (33 / 10) 1023).samples ∧
    samplesTaken ((defaults 14 10000 true).setConsts 1 1 0 (33 / 10) 1023) (fun _ => 5) 0
      = [5] ∧
    ⌊mean [5] + 1 / 2⌋ = 5 ∧
    (readADC ((defaults 14 10000 true).setConsts 1 1 0 (33 / 10) 1023)
      (fun _ => 5) 0).1.value = some 6 := by
  have hs : samplesTaken ((defaults 14 10000 true).setConsts 1 1 0 (33 / 10) 1023)
      (fun _ => 5) 0 = [5] := by
    simp [samplesTaken, setConsts, defaults, List.range_succ]
  refine ⟨by simp [setConsts], hs, ?_, ?_⟩
  · rw [Int.floor_eq_iff]
    norm_num [mean]
  · rw [readADC_value _ _ _ (by simp [setConsts]) (by rw [hs]; simp [setConsts]), hs]
    simp [setConsts]

/-- C5 (amended): for `samples ≥ 1` and readings `xs` whose biased sum, the
sum of the `x + 0.5`, is below `2 ^ 23` (where the `float` accumulator holds it
exactly) and whose mean is below 65535, `readADC` returns `floor (mean xs) + 1`,
the mean biased by one half and then rounded half up; in particular it returns
`x + 1` when all readings equal `x`, and so when the only reading is `x`. -/
theorem readADC_floor_mean_succ (d : vDivider) (adc : Nat → Nat) (t : Nat) (xs : List Nat)
    (hn : 1 ≤ d.samples) (hxs : samplesTaken d adc t = xs)
    (hexact : (xs.map fun (x : Nat) => (x : ℚ) + 1 / 2).sum < 8388608)
    (hfit : ⌊mean xs⌋ < 65535) :
    (∃ c : Nat, (readADC d adc t).1.value = some c ∧ (c : Int) = ⌊mean xs⌋ + 1 ∧
      (c : Int) = ⌊mean xs + 1 / 2 + 1 / 2⌋) ∧
    (∀ x : Nat, (∀ y ∈ xs, y = x) → (readADC d adc t).1.value = some (x + 1)) ∧
    (d.samples = 1 → (readADC d adc t).1.value = some (adc (firstSample d t) + 1)) := by
  have hne : xs ≠ [] := hxs ▸ samplesTaken_ne_nil d adc t hn
  have hlen : xs.length = d.samples := hxs ▸ samplesTaken_length d adc t
  have hfit2 : xs.sum / d.samples + 1 < 65536 := by
    rw [floor_mean, hlen] at hfit
    have : xs.sum / d.samples < 65535 := by exact_mod_cast hfit
    omega
  have hx : 2 * (samplesTaken d adc t).sum + d.samples < 2 ^ 24 := by
    rw [hxs, ← hlen]
    exact (biased_sum_lt_iff xs).mp hexact
  have hv : (readADC d adc t).1.value = some (xs.sum / d.samples + 1) := by
    rw [readADC_value d adc t hn hx, hxs, if_pos hfit2]
  refine ⟨⟨xs.sum / d.samples + 1, hv, ?_, ?_⟩, ?_, ?_⟩
  · rw [floor_mean, hlen]
    norm_cast
  · rw [show mean xs + 1 / 2 + 1 / 2 = mean xs + 1 by ring, Int.floor_add_one, floor_mean, hlen]
    norm_cast
  · intro x hall
    rw [hv, ← hlen, sum_div_of_forall_eq xs x hne hall]
  · intro h1
    have hx1 : xs = [adc (firstSample d t)] := by
      rw [← hxs]
      simp [samplesTaken, h1, List.range_succ]
    rw [hv, h1, hx1]
    simp

theorem readADC_floor_mean_succ_witness :
    1 ≤ ((defaults 14 10000 true).setConsts 1 1 0 (33 / 10) 1023).samples ∧
    samplesTaken ((defaults 14 10000 true).setConsts 1 1 0 (33 / 10) 1023) (fun _ => 5) 0
      = [5] ∧
    ([5].map fun (x : Nat) => (x : ℚ) + 1 / 2).sum < 8388608 ∧
    ⌊mean [5]⌋ < 65535 ∧
    (readADC ((defaults 14 10000 true).setConsts 1 1 0 (33 / 10) 1023)
      (fun _ => 5) 0).1.value = some (5 + 1) := by
  have hs : samplesTaken ((defaults 14 10000 true).setConsts 1 1 0 (33 / 10) 1023)
      (fun _ => 5) 0 = [5] := by
    simp [samplesTaken, setConsts, defaults, List.range_succ]
  have hfit : ⌊mean [5]⌋ < 65535 := by
    rw [floor_mean]
    simp
  have hexact : ([5].map fun (x : Nat) => (x : ℚ) + 1 / 2).sum < 8388608 := by
    norm_num
  exact ⟨by simp [setConsts], hs, hexact, hfit,
    (readADC_floor_mean_succ _ (fun _ => 5) 0 [5] (by simp [setConsts]) hs hexact hfit).2.1 5
      (by simp)⟩

/-! ## The accumulator beyond its exact range

Past the exact range of `float` the running total is rounded at each
addition. With 8205 readings of 1022 the last addition of the loop lands on
a tie and is rounded up, and the function then returns 1022 where the exact
total would give 1023. -/

theorem FComp.andThen_eq_of {α β : Type} {c : FComp α} {f : α → FComp β} {a : α} {b : β}
    {n m : Nat} (hc : c = some (a, n)) (hf : f a = some (b, m)) :
    c.andThen f = some (b, n + m) := by
  subst hc
  simp only [FComp.andThen, hf]

theorem accumulate_add (adc : Nat → Nat) (k1 k2 t : Nat) (total : ℚ) :
    accumulate adc (k1 + k2) t total
      = accumulate adc k2 (accumulate adc k1 t total).2 (accumulate adc k1 t total).1 := by
  induction k1 generalizing t total with
  | zero => simp [accumulate]
  | succ k ih =>
    rw [Nat.succ_add, accumulate, accumulate, ih]

theorem int_log_two_eq (q : ℚ) (e : Int) (h1 : (2 : ℚ) ^ e ≤ q) (h2 : q < (2 : ℚ) ^ (e + 1)) :
    Int.log 2 q = e := by
  have hq : 0 < q := lt_of_lt_of_le (zpow_pos (by norm_num) e) h1
  apply le_antisymm
  · have := (Int.lt_zpow_iff_log_lt (R := ℚ) (b := 2) (by norm_num) hq).mp
      (by exact_mod_cast h2)
    omega
  · exact (Int.zpow_le_iff_le_log (R := ℚ) (b := 2) (by norm_num) hq).mp (by exact_mod_cast h1)

/-- Evaluation of a rounding from the binade of the number and the rounded
significand. -/
theorem roundFloat_eq (p : Nat) (q : ℚ) (e m : Int) (h1 : (2 : ℚ) ^ e ≤ q)
    (h2 : q < (2 : ℚ) ^ (e + 1))
    (hm : roundHalfEven (q / (2 : ℚ) ^ (e - (p : Int) + 1)) = m) :
    roundFloat p q = (m : ℚ) * (2 : ℚ) ^ (e - (p : Int) + 1) := by
  have hq : 0 < q := lt_of_lt_of_le (zpow_pos (by norm_num) e) h1
  unfold roundFloat
  rw [if_neg (ne_of_gt hq), abs_of_pos hq, int_log_two_eq q e h1 h2, hm]

theorem roundHalfEven_of_lt (q : ℚ) (f : Int) (h1 : (f : ℚ) ≤ q) (h2 : q < (f : ℚ) + 1 / 2) :
    roundHalfEven q = f := by
  have hf : ⌊q⌋ = f := by
    rw [Int.floor_eq_iff]
    exact ⟨h1, by linarith⟩
  unfold roundHalfEven
  rw [hf, if_pos (by linarith)]

theorem roundHalfEven_tie_even (q : ℚ) (f : Int) (h1 : q = (f : ℚ) + 1 / 2) (h2 : f % 2 = 0) :
    roundHalfEven q = f := by
  have hf : ⌊q⌋ = f := by
    rw [Int.floor_eq_iff]
    exact ⟨by linarith, by linarith⟩
  unfold roundHalfEven
  rw [hf, if_neg (by linarith), if_neg (by linarith), if_pos h2]

theorem accumulate_const (c k t a : Nat) (h : a + 2 * (k * c) + k < 2 ^ 24) :
    accumulate (fun _ => c) k t ((a : ℚ) / 2)
      = ((a : ℚ) / 2 + (k : ℚ) * ((c : ℚ) + 1 / 2), t + k) := by
  have hl : ((List.range k).map fun _ : Nat => c).sum = k * c := by
    rw [List.map_const', List.sum_replicate, List.length_range, smul_eq_mul]
  have hq : ((List.range k).map fun _ : Nat => (c : ℚ) + 1 / 2).sum
      = (k : ℚ) * ((c : ℚ) + 1 / 2) := by
    rw [List.map_const', List.sum_replicate, List.length_range, nsmul_eq_mul]
  rw [accumulate_eq (fun _ => c) k t a (by rw [hl]; exact h), hq]

/-- The first 8204 additions of 1022.5 are exact. -/
theorem accumulate_8204 : accumulate (fun _ => 1022) 8204 0 0 = (8388590, 8204) := by
  have h0 : (0 : ℚ) = ((0 : Nat) : ℚ) / 2 := by norm_num
  rw [h0, accumulate_const 1022 8204 0 0 (by norm_num)]
  norm_num

/-- The next addition gives 8389612.5, a tie between two neighbouring `float`
values, and is stored as 8389612. -/
theorem accumulate_step_rounds :
    toFloat (toDouble ((8388590 : ℚ) + toDouble (((1022 : Nat) : ℚ) + 1 / 2))) = 8389612 := by
  have e1 : ((1022 : Nat) : ℚ) + 1 / 2 = ((2045 : Nat) : ℚ) / 2 := by norm_num
  have e2 : (8388590 : ℚ) + ((2045 : Nat) : ℚ) / 2 = ((16779225 : Nat) : ℚ) / 2 := by
    norm_num
  rw [e1, toDouble_half _ (by norm_num), e2, toDouble_half _ (by norm_num)]
  unfold toFloat
  rw [roundFloat_eq 24 _ 23 8389612 (by norm_num) (by norm_num)
    (roundHalfEven_tie_even _ 8389612 (by norm_num) (by norm_num))]
  norm_num

theorem accumulate_8205 : accumulate (fun _ => 1022) 8205 0 0 = (8389612, 8205) := by
  rw [show (8205 : Nat) = 8204 + 1 from rfl, accumulate_add, accumulate_8204]
  simp only [accumulate]
  rw [accumulate_step_rounds]

theorem toFloat_quotient_8205 :
    toFloat ((8389612 : ℚ) / ((8205 : Nat) : ℚ)) = 16752639 / 16384 := by
  unfold toFloat
  rw [roundFloat_eq 24 _ 9 16752639 (by norm_num) (by norm_num)
    (roundHalfEven_of_lt _ 16752639 (by norm_num) (by norm_num))]
  norm_num

theorem toDouble_quotient_plus_half :
    toDouble ((16752639 : ℚ) / 16384 + 1 / 2) = 16760831 / 16384 := by
  have h := roundFloat_exact 53 16760831 (-14) (by norm_num)
  have e : ((16760831 : Nat) : ℚ) * (2 : ℚ) ^ (-14 : Int) = 16752639 / 16384 + 1 / 2 := by
    norm_num
  rw [e] at h
  unfold toDouble
  rw [h]
  norm_num

theorem truncate_rounded_8205 : truncate ((16760831 : ℚ) / 16384) = 1022 := by
  rw [truncate_of_nonneg (by norm_num), Int.floor_eq_iff]
  constructor <;> norm_num

theorem toUInt16_rounded_8205 :
    toUInt16 (toDouble (toFloat ((8389612 : ℚ) / ((8205 : Nat) : ℚ)) + 1 / 2))
      = some (1022, 0) := by
  rw [toFloat_quotient_8205, toDouble_quotient_plus_half]
  unfold toUInt16
  rw [truncate_rounded_8205, if_pos (by norm_num)]
  rfl

theorem readADC_unfold (d : vDivider) (adc : Nat → Nat) (t : Nat) :
    readADC d adc t
      = ((fdiv (accumulate adc d.samples (firstSample d t) 0).1 (d.samples : ℚ)).andThen
          (fun q => toUInt16 (toDouble (toFloat q + 1 / 2))),
         (accumulate adc d.samples (firstSample d t) 0).2) := rfl

/-- With 8205 samples and every reading 1022, `readADC` returns 1022: the
rounding of the `float` total cancels the upward bias of the result. -/
theorem readADC_rounds_beyond_exact_range :
    readADC ((defaults 14 10000 true).setConsts 8205 0 0 (33 / 10) 1023) (fun _ => 1022) 0
      = (some (1022, 1), 8205) := by
  have hsamp : ((defaults 14 10000 true).setConsts 8205 0 0 (33 / 10) 1023).samples = 8205 := rfl
  have hfs : firstSample ((defaults 14 10000 true).setConsts 8205 0 0 (33 / 10) 1023) 0 = 0 := rfl
  rw [readADC_unfold, hsamp, hfs, accumulate_8205,
    FComp.andThen_eq_of (fdiv_of_ne _ (by norm_num)) toUInt16_rounded_8205]

/-! ## Voltage from a code -/

/-- The value of `calcVOut(uint16_t)`: no bound is applied to the code. -/
theorem calcVOut_u16_eq (d : vDivider) (code : Nat) :
    calcVOut_u16 d code = some ((code : ℚ) * (d.avRef / ((d.adcMax + 1 : Nat) : ℚ)), 1) := by
  have h : ((d.adcMax + 1 : Nat) : ℚ) ≠ 0 := by exact_mod_cast Nat.succ_ne_zero d.adcMax
  unfold calcVOut_u16
  simp only [fdiv_of_ne _ h, FComp.bind_eq, FComp.andThen, FComp.pure_eq, FComp.ret]

/-- C6 (code evaluated at the failing input): with `adcMax = 1023` and
`avRef = 3.3` the code 2046 would be clamped to 1023, yet `calcVOut(2046)` is
`2046 * 3.3 / 1024`, twice `calcVOut(1023)`. -/
theorem calcVOut_u16_not_clamped :
    constrain 2046 0 (defaults 14 10000 true).adcMax = 1023 ∧
    (calcVOut_u16 (defaults 14 10000 true) 2046).value = some (33759 / 5120) ∧
    (calcVOut_u16 (defaults 14 10000 true) 1023).value = some (33759 / 10240) ∧
    (calcVOut_u16 (defaults 14 10000 true) 2046).value
      ≠ (calcVOut_u16 (defaults 14 10000 true) 1023).value := by
  rw [calcVOut_u16_eq, calcVOut_u16_eq]
  refine ⟨by simp [constrain, defaults], ?_, ?_, ?_⟩ <;>
    simp only [FComp.value, defaults] <;> norm_num

/-- C7: for `avRef > 0` and codes `c1 ≤ c2 ≤ adcMax`, `calcVOut` is defined
with `calcVOut(c1) ≤ calcVOut(c2)`, both within `[0, avRef]`; `calcVOut(0) = 0`
and `calcVOut(adcMax) = avRef * adcMax / (adcMax + 1)`. -/
theorem calcVOut_u16_monotone (d : vDivider) (c1 c2 : Nat)
    (ha : d.avRef > 0) (h12 : c1 ≤ c2) (h2 : c2 ≤ d.adcMax) :
    (∃ v1 v2 : ℚ, (calcVOut_u16 d c1).value = some v1 ∧ (calcVOut_u16 d c2).value = some v2 ∧
      v1 ≤ v2 ∧ 0 ≤ v1 ∧ v2 ≤ d.avRef) ∧
    (calcVOut_u16 d 0).value = some 0 ∧
    (calcVOut_u16 d d.adcMax).value
      = some (d.avRef * (d.adcMax : ℚ) / ((d.adcMax : ℚ) + 1)) := by
  have hs : (0 : ℚ) < ((d.adcMax + 1 : Nat) : ℚ) := by exact_mod_cast Nat.succ_pos d.adcMax
  have hq : 0 < d.avRef / ((d.adcMax + 1 : Nat) : ℚ) := div_pos ha hs
  have hc12 : (c1 : ℚ) ≤ (c2 : ℚ) := by exact_mod_cast h12
  have hc2 : (c2 : ℚ) ≤ ((d.adcMax + 1 : Nat) : ℚ) := by
    exact_mod_cast Nat.le_succ_of_le h2
  have hc1 : (0 : ℚ) ≤ (c1 : ℚ) := Nat.cast_nonneg c1
  refine ⟨⟨(c1 : ℚ) * (d.avRef / ((d.adcMax + 1 : Nat) : ℚ)),
    (c2 : ℚ) * (d.avRef / ((d.adcMax + 1 : Nat) : ℚ)), ?_, ?_, ?_, ?_, ?_⟩, ?_, ?_⟩
  · rw [calcVOut_u16_eq]
    rfl
  · rw [calcVOut_u16_eq]
    rfl
  · exact mul_le_mul_of_nonneg_right hc12 (le_of_lt hq)
  · exact mul_nonneg hc1 (le_of_lt hq)
  · calc (c2 : ℚ) * (d.avRef / ((d.adcMax + 1 : Nat) : ℚ))
        ≤ ((d.adcMax + 1 : Nat) : ℚ) * (d.avRef / ((d.adcMax + 1 : Nat) : ℚ)) :=
          mul_le_mul_of_nonneg_right hc2 (le_of_lt hq)
      _ = d.avRef := by field_simp
  · rw [calcVOut_u16_eq]
    simp [FComp.value]
  · rw [calcVOut_u16_eq]
    simp only [FComp.value, Option.some.injEq]
    push_cast
    ring

theorem calcVOut_u16_monotone_witness :
    (defaults 14 10000 true).avRef > 0 ∧ 256 ≤ 512 ∧ 512 ≤ (defaults 14 10000 true).adcMax ∧
    ((∃ v1 v2 : ℚ, (calcVOut_u16 (defaults 14 10000 true) 256).value = some v1 ∧
      (calcVOut_u16 (defaults 14 10000 true) 512).value = some v2 ∧
      v1 ≤ v2 ∧ 0 ≤ v1 ∧ v2 ≤ (defaults 14 10000 true).avRef) ∧
    (calcVOut_u16 (defaults 14 10000 true) 0).value = some 0 ∧
    (calcVOut_u16 (defaults 14 10000 true) (defaults 14 10000 true).adcMax).value
      = some ((defaults 14 10000 true).avRef * ((defaults 14 10000 true).adcMax : ℚ)
          / (((defaults 14 10000 true).adcMax : ℚ) + 1))) :=
  ⟨by norm_num [defaults], by norm_num, by norm_num [defaults],
    calcVOut_u16_monotone (defaults 14 10000 true) 256 512 (by norm_num [defaults])
      (by norm_num) (by norm_num [defaults])⟩

/-! ## The disabled divider -/

/-- C8: with `balanceResistor = 0`, whatever `isR1`, the code, the `int` or
the voltage (zero included), each of `calcR1`, `calcR2`, `calcR1x` and
`calcR2x` returns 0 without performing a division; `TMP36::TMP36` builds such
a divider. -/
theorem calcR_zero_balance (d : vDivider) (code : Nat) (i : Int) (v : ℚ)
    (hb : d.balanceResistor = 0) :
    (calcR1_u16 d code = FComp.ret 0 ∧ calcR2_u16 d code = FComp.ret 0 ∧
      calcR1x_u16 d code = FComp.ret 0 ∧ calcR2x_u16 d code = FComp.ret 0) ∧
    (calcR1_float d v = FComp.ret 0 ∧ calcR2_float d v = FComp.ret 0 ∧
      calcR1x_float d v = FComp.ret 0 ∧ calcR2x_float d v = FComp.ret 0) ∧
    (calcR1_int d i = FComp.ret 0 ∧ calcR2_int d i = FComp.ret 0 ∧
      calcR1x_int d i = FComp.ret 0 ∧ calcR2x_int d i = FComp.ret 0) ∧
    ∀ sPin : Nat, (TMP36.new sPin).balanceResistor = 0 := by
  have h0 : ¬ d.balanceResistor > 0 := by
    rw [hb]
    exact lt_irrefl 0
  refine ⟨⟨?_, ?_, ?_, ?_⟩, ⟨?_, ?_, ?_, ?_⟩, ⟨?_, ?_, ?_, ?_⟩, fun _ => rfl⟩
  · simp only [calcR1_u16, doCalcR1_u16, if_neg h0, FComp.pure_eq]
  · simp only [calcR2_u16, doCalcR2_u16, if_neg h0, FComp.pure_eq]
  · simp only [calcR1x_u16, doCalcR1x_u16, if_neg h0, FComp.pure_eq]
  · simp only [calcR2x_u16, doCalcR2x_u16, if_neg h0, FComp.pure_eq]
  · simp only [calcR1_float, doCalcR1_float, if_neg h0, FComp.pure_eq]
  · simp only [calcR2_float, doCalcR2_float, if_neg h0, FComp.pure_eq]
  · simp only [calcR1x_float, doCalcR1x_float, if_neg h0, FComp.pure_eq]
  · simp only [calcR2x_float, doCalcR2x_float, if_neg h0, FComp.pure_eq]
  · simp only [calcR1_int, calcR1_u16, doCalcR1_u16, if_neg h0, FComp.pure_eq]
  · simp only [calcR2_int, calcR2_u16, doCalcR2_u16, if_neg h0, FComp.pure_eq]
  · simp only [calcR1x_int, calcR1x_u16, doCalcR1x_u16, if_neg h0, FComp.pure_eq]
  · simp only [calcR2x_int, calcR2x_u16, doCalcR2x_u16, if_neg h0, FComp.pure_eq]

theorem calcR_zero_balance_witness :
    (TMP36.new 14).balanceResistor = 0 ∧
    (calcR2_u16 (TMP36.new 14).tovDivider 0).value = some 0 ∧
    (calcR2_u16 (TMP36.new 14).tovDivider 0).divisions = some 0 ∧
    (calcR1x_float (TMP36.new 14).tovDivider 0).value = some 0 ∧
    (calcR1x_float (TMP36.new 14).tovDivider 0).divisions = some 0 := by
  have h := calcR_zero_balance (TMP36.new 14).tovDivider 0 0 0 rfl
  rw [h.1.2.1, h.2.1.2.2.1]
  exact ⟨rfl, rfl, rfl, rfl, rfl⟩

/-! ## The assumed-position variants -/

/-- C9 (code evaluated at the failing input): balance resistor 10 kΩ,
`adcMax = 1023`, one sample, no warm-up, reading 255.  The averaged code is
256 (ratio 3); the sampling form `calcR2x()` returns `30000`, the value of
`calcR1x(256)`, whereas `calcR2x(256)` is `10000 / 3`. -/
theorem calcR2x_sampling_uses_R1x :
    (readADC ((defaults 14 10000 true).setConsts 1 1 0 (33 / 10) 1023)
      (fun _ => 255) 0).1.value = some 256 ∧
    (calcR2x ((defaults 14 10000 true).setConsts 1 1 0 (33 / 10) 1023)
      (fun _ => 255) 0).1.value = some 30000 ∧
    (calcR1x_u16 ((defaults 14 10000 true).setConsts 1 1 0 (33 / 10) 1023) 256).value
      = some 30000 ∧
    (calcR2x_u16 ((defaults 14 10000 true).setConsts 1 1 0 (33 / 10) 1023) 256).value
      = some (10000 / 3) := by
  have hs : samplesTaken ((defaults 14 10000 true).setConsts 1 1 0 (33 / 10) 1023)
      (fun _ => 255) 0 = [255] := by
    simp [samplesTaken, setConsts, defaults, List.range_succ]
  have hr : (readADC ((defaults 14 10000 true).setConsts 1 1 0 (33 / 10) 1023)
      (fun _ => 255) 0).1 = some (256, 1) := by
    rw [readADC_eq _ _ _ (by simp [setConsts]) (by rw [hs]; simp [setConsts]), hs,
      truncate_biasedMean _ (by simp)]
    simp
  have h1 : doCalcR1x_u16 ((defaults 14 10000 true).setConsts 1 1 0 (33 / 10) 1023) 256
      = some (30000, 1) := by
    rw [doCalcR1x_u16_eq _ _ (by norm_num [setConsts, defaults]) (by norm_num)]
    norm_num [setConsts, defaults]
  have h2 : doCalcR2x_u16 ((defaults 14 10000 true).setConsts 1 1 0 (33 / 10) 1023) 256
      = some (10000 / 3, 2) := by
    rw [doCalcR2x_u16_eq _ _ (by norm_num [setConsts, defaults]) (by norm_num)]
    norm_num [setConsts, defaults]
  refine ⟨?_, ?_, ?_, ?_⟩
  · rw [hr]
    rfl
  · unfold calcR2x
    simp only [hr, FComp.bind_eq, FComp.andThen, h1]
    rfl
  · show (doCalcR1x_u16 _ _).value = _
    rw [h1]
    rfl
  · show (doCalcR2x_u16 _ _).value = _
    rw [h2]
    rfl

/-- C10: `calcR1x` on a divider configured with `isR1 = true` equals `calcR1`
on the same divider with `isR1 = false`, and `calcR2x` on a divider configured
with `isR1 = false` equals `calcR2` on the same divider with `isR1 = true`,
for every code (as `uint16_t` or `int`) and every voltage. -/
theorem calcRx_eq_calcR_flipped (d : vDivider) (code : Nat) (i : Int) (v : ℚ) :
    (calcR1x_u16 { d with isR1 := true } code = calcR1_u16 { d with isR1 := false } code ∧
      calcR2x_u16 { d with isR1 := false } code = calcR2_u16 { d with isR1 := true } code) ∧
    (calcR1x_int { d with isR1 := true } i = calcR1_int { d with isR1 := false } i ∧
      calcR2x_int { d with isR1 := false } i = calcR2_int { d with isR1 := true } i) ∧
    (calcR1x_float { d with isR1 := true } v = calcR1_float { d with isR1 := false } v ∧
      calcR2x_float { d with isR1 := false } v = calcR2_float { d with isR1 := true } v) := by
  have u1 : ∀ c : Nat, calcR1x_u16 { d with isR1 := true } c
      = calcR1_u16 { d with isR1 := false } c := by
    intro c
    show doCalcR1x_u16 _ c = doCalcR1_u16 _ c
    rw [doCalcR1_u16_of_isR2 _ _ rfl]
    rfl
  have u2 : ∀ c : Nat, calcR2x_u16 { d with isR1 := false } c
      = calcR2_u16 { d with isR1 := true } c := by
    intro c
    show doCalcR2x_u16 _ c = doCalcR2_u16 _ c
    rw [doCalcR2_u16_of_isR1 _ _ rfl]
    rfl
  refine ⟨⟨u1 code, u2 code⟩, ⟨u1 _, u2 _⟩, ?_, ?_⟩
  · show doCalcR1x_float _ v = doCalcR1_float _ v
    rw [doCalcR1_float_of_isR2 _ _ rfl]
    rfl
  · show doCalcR2x_float _ v = doCalcR2_float _ v
    rw [doCalcR2_float_of_isR1 _ _ rfl]
    rfl

/-! ## The thermistor curves -/

theorem fdiv_of_ne_zero {K : Type} [DivisionRing K] [DecidableEq K] (a : K) {b : K}
    (h : b ≠ 0) : fdiv a b = some (a / b, 1) := by
  simp [fdiv, h]

theorem fdiv_by_zero {K : Type} [DivisionRing K] [DecidableEq K] (a : K) :
    fdiv a 0 = none := by
  simp [fdiv]

theorem flog_of_pos {K : Type} [LinearOrderedField K] (ln : K → K) {x : K} (h : 0 < x) :
    flog ln x = some (ln x, 0) := by
  simp [flog, h, FComp.ret]

theorem flog_of_not_pos {K : Type} [LinearOrderedField K] (ln : K → K) {x : K}
    (h : ¬ 0 < x) : flog ln x = none := by
  simp [flog, h, FComp.undef]

/-- The Beta branch of `readTemperatureK(float)` in closed form. -/
theorem readTemperatureK_float_beta {K : Type} [LinearOrderedField K] (ln : K → K)
    (th : Thermistor K) (r : K) (hu : th.useCBeta = true) :
    Thermistor.readTemperatureK_float ln th r =
      if th.nomTemp + 27315 / 100 ≠ 0 ∧ th.cBeta ≠ 0 ∧ th.nomRst ≠ 0 ∧ 0 < r / th.nomRst ∧
          betaInvT ln th.cBeta th.nomRst th.nomTemp r ≠ 0
        then some (1 / betaInvT ln th.cBeta th.nomRst th.nomTemp r, 4) else none := by
  unfold Thermistor.readTemperatureK_float betaInvT
  simp only [hu, if_true, FComp.bind_eq, FComp.pure_eq]
  by_cases h1 : th.nomTemp + 27315 / 100 = 0
  · simp [h1, fdiv_by_zero, FComp.andThen]
  by_cases h2 : th.cBeta = 0
  · simp [h2, fdiv_by_zero, fdiv_of_ne_zero _ h1, FComp.andThen]
  by_cases h3 : th.nomRst = 0
  · simp [h3, fdiv_by_zero, fdiv_of_ne_zero _ h1, fdiv_of_ne_zero _ h2, FComp.andThen]
  by_cases h4 : 0 < r / th.nomRst
  · by_cases h5 : 1 / (th.nomTemp + 27315 / 100) + 1 / th.cBeta * ln (r / th.nomRst) = 0
    · simp only [fdiv_of_ne_zero _ h1, fdiv_of_ne_zero _ h2, fdiv_of_ne_zero _ h3,
        flog_of_pos ln h4, FComp.andThen, FComp.ret, h5, fdiv_by_zero]
      simp
    · simp only [fdiv_of_ne_zero _ h1, fdiv_of_ne_zero _ h2, fdiv_of_ne_zero _ h3,
        flog_of_pos ln h4, FComp.andThen, FComp.ret, fdiv_of_ne_zero _ h5]
      rw [if_pos ⟨h1, h2, h3, h4, h5⟩]
  · simp only [fdiv_of_ne_zero _ h1, fdiv_of_ne_zero _ h2, fdiv_of_ne_zero _ h3,
      flog_of_not_pos ln h4, FComp.andThen]
    simp [h4]

/-- The Steinhart-Hart branch of `readTemperatureK(float)` in closed form. -/
theorem readTemperatureK_float_shh {K : Type} [LinearOrderedField K] (ln : K → K)
    (th : Thermistor K) (r : K) (hu : th.useCBeta = false) :
    Thermistor.readTemperatureK_float ln th r =
      if 0 < r ∧
          steinhartHartInvT ln th.coefficient1 th.coefficient2 th.coefficient3 r ≠ 0
        then some
          (1 / steinhartHartInvT ln th.coefficient1 th.coefficient2 th.coefficient3 r, 1)
        else none := by
  unfold Thermistor.readTemperatureK_float steinhartHartInvT
  simp only [hu, Bool.false_eq_true, if_false, FComp.bind_eq, FComp.pure_eq]
  by_cases h1 : 0 < r
  · by_cases h2 : th.coefficient1 + th.coefficient2 * ln r + th.coefficient3 * ln r ^ 3 = 0
    · simp only [flog_of_pos ln h1, FComp.andThen, FComp.ret, h2, fdiv_by_zero]
      simp
    · simp only [flog_of_pos ln h1, FComp.andThen, FComp.ret, fdiv_of_ne_zero _ h2]
      rw [if_pos ⟨h1, h2⟩]
  · simp only [flog_of_not_pos ln h1, FComp.andThen]
    simp [h1]

theorem FComp.value_andThen_ret {α β : Type} (x : FComp α) (f : α → β) :
    (x.andThen fun a => FComp.ret (f a)).value = x.value.map f := by
  cases x with
  | none => rfl
  | some p => rfl

theorem FComp.value_andThen {α β : Type} (x : FComp α) (f : α → FComp β) :
    (x.andThen f).value = x.value.bind fun a => (f a).value := by
  cases x with
  | none => rfl
  | some p =>
    obtain ⟨a, n⟩ := p
    simp only [FComp.andThen, FComp.value, Option.some_bind]
    cases f a with
    | none => rfl
    | some q => rfl

/-- Solving the Beta model at the nominal resistance, for a logarithm that
vanishes at one. -/
theorem readTemperatureK_float_nominal {K : Type} [LinearOrderedField K] (ln : K → K)
    (hln : ln 1 = 0) (th : Thermistor K) (hu : th.useCBeta = true) (hb : th.cBeta ≠ 0)
    (hn : 0 < th.nomRst) (ht : th.nomTemp + 27315 / 100 ≠ 0) :
    Thermistor.readTemperatureK_float ln th th.nomRst = some (th.nomTemp + 27315 / 100, 4) := by
  have hn0 : th.nomRst ≠ 0 := ne_of_gt hn
  have hq : th.nomRst / th.nomRst = 1 := div_self hn0
  have hinv : betaInvT ln th.cBeta th.nomRst th.nomTemp th.nomRst
      = 1 / (th.nomTemp + 27315 / 100) := by
    unfold betaInvT
    rw [hq, hln, mul_zero, add_zero]
  have hne : betaInvT ln th.cBeta th.nomRst th.nomTemp th.nomRst ≠ 0 := by
    rw [hinv]
    exact one_div_ne_zero ht
  rw [readTemperatureK_float_beta ln th th.nomRst hu,
    if_pos ⟨ht, hb, hn0, by rw [hq]; exact one_pos, hne⟩, hinv, one_div_one_div]

/-- C11: over the reals and for a resistance `r > 0`, `readTemperatureK(r)` is
`1 / (1/(nomTemp + 273.15) + (1/cBeta) * ln(r/nomRst))` when the Beta model is
active and `1 / (c1 + c2*ln(r) + c3*(ln r)^3)` when the Steinhart-Hart model
is active; it has that value exactly when the expression divides by no zero
and, for the Beta model, `nomRst` is positive. -/
theorem readTemperatureK_float_real (th : Thermistor ℝ) (r : ℝ) (hr : 0 < r) :
    (Thermistor.readTemperatureK_float Real.log { th with useCBeta := true } r).value =
      (if th.nomTemp + 27315 / 100 ≠ 0 ∧ th.cBeta ≠ 0 ∧ 0 < th.nomRst ∧
          1 / (th.nomTemp + 27315 / 100) + (1 / th.cBeta) * Real.log (r / th.nomRst) ≠ 0
        then some
          (1 / (1 / (th.nomTemp + 27315 / 100) + (1 / th.cBeta) * Real.log (r / th.nomRst)))
        else none) ∧
    (Thermistor.readTemperatureK_float Real.log { th with useCBeta := false } r).value =
      (if th.coefficient1 + th.coefficient2 * Real.log r + th.coefficient3 * Real.log r ^ 3 ≠ 0
        then some
          (1 / (th.coefficient1 + th.coefficient2 * Real.log r
            + th.coefficient3 * Real.log r ^ 3))
        else none) := by
  constructor
  · rw [readTemperatureK_float_beta Real.log _ r rfl]
    simp only [betaInvT]
    by_cases hc : th.nomTemp + 27315 / 100 ≠ 0 ∧ th.cBeta ≠ 0 ∧ 0 < th.nomRst ∧
        1 / (th.nomTemp + 27315 / 100) + (1 / th.cBeta) * Real.log (r / th.nomRst) ≠ 0
    · rw [if_pos hc, if_pos ⟨hc.1, hc.2.1, ne_of_gt hc.2.2.1, div_pos hr hc.2.2.1, hc.2.2.2⟩]
      rfl
    · rw [if_neg hc, if_neg]
      · rfl
      · intro h
        have hpos : 0 < th.nomRst := by
          rcases lt_trichotomy th.nomRst 0 with hlt | heq | hgt
          · exact absurd h.2.2.2.1 (not_lt.mpr (le_of_lt (div_neg_of_pos_of_neg hr hlt)))
          · exact absurd heq h.2.2.1
          · exact hgt
        exact hc ⟨h.1, h.2.1, hpos, h.2.2.2.2⟩
  · rw [readTemperatureK_float_shh Real.log _ r rfl]
    simp only [steinhartHartInvT]
    by_cases hc : th.coefficient1 + th.coefficient2 * Real.log r
        + th.coefficient3 * Real.log r ^ 3 ≠ 0
    · rw [if_pos hc, if_pos ⟨hr, hc⟩]
      rfl
    · rw [if_neg hc, if_neg fun h => hc h.2]
      rfl

theorem readTemperatureK_float_real_witness :
    (0 : ℝ) < 10000 ∧
    (Thermistor.readTemperatureK_float Real.log
      { (Thermistor.new 14 10000 true false (1 : ℝ)) with useCBeta := true } 10000).value
      = some (1 / (1 / ((1 : ℝ) + 27315 / 100) + (1 / 1) * Real.log (10000 / 1))) ∧
    (Thermistor.readTemperatureK_float Real.log
      { (Thermistor.new 14 10000 true true (1 : ℝ)) with useCBeta := false } 1).value
      = some 1 := by
  have hl : (0 : ℝ) < Real.log 10000 := Real.log_pos (by norm_num)
  refine ⟨by norm_num, ?_, ?_⟩
  · rw [(readTemperatureK_float_real (Thermistor.new 14 10000 true false (1 : ℝ)) 10000
      (by norm_num)).1]
    simp only [Thermistor.new, Thermistor.setTType, Thermistor.setC123, Thermistor.setCBeta]
    norm_num
    intro h0
    linarith
  · rw [(readTemperatureK_float_real (Thermistor.new 14 10000 true true (1 : ℝ)) 1
      (by norm_num)).2]
    simp only [Thermistor.new, Thermistor.setTType, Thermistor.setC123, Thermistor.setCBeta]
    norm_num

/-- C12: over the reals, a Beta-model thermistor with `cBeta ≠ 0`,
`nomRst > 0` and `nomTemp + 273.15 ≠ 0` solved at its nominal resistance gives
`readTemperatureK(nomRst) = nomTemp + 273.15` and
`readTemperatureC(nomRst) = nomTemp`; with `cBeta = 3435`, `nomRst = 10000` and
`nomTemp = 25` the former is 298.15 K. -/
theorem readTemperature_at_nominal (th : Thermistor ℝ) (hu : th.useCBeta = true)
    (hb : th.cBeta ≠ 0) (hn : 0 < th.nomRst) (ht : th.nomTemp + 27315 / 100 ≠ 0) :
    (Thermistor.readTemperatureK_float Real.log th th.nomRst).value
      = some (th.nomTemp + 27315 / 100) ∧
    (Thermistor.readTemperatureC_float Real.log th th.nomRst).value = some th.nomTemp ∧
    (Thermistor.readTemperatureK_float Real.log (th.setCBeta 3435 10000 25) 10000).value
      = some (29815 / 100) := by
  have hk := readTemperatureK_float_nominal Real.log Real.log_one th hu hb hn ht
  refine ⟨?_, ?_, ?_⟩
  · rw [hk]
    rfl
  · unfold Thermistor.readTemperatureC_float
    rw [hk]
    simp [FComp.bind_eq, FComp.andThen, FComp.pure_eq, FComp.ret, FComp.value,
      Thermistor.convertKelvinToCelsius]
  · have h := readTemperatureK_float_nominal Real.log Real.log_one (th.setCBeta 3435 10000 25)
      rfl (by simp [Thermistor.setCBeta]) (by simp [Thermistor.setCBeta])
      (by simp only [Thermistor.setCBeta]; norm_num)
    simp only [Thermistor.setCBeta] at h ⊢
    rw [h]
    simp only [FComp.value, Option.some.injEq]
    norm_num

theorem readTemperature_at_nominal_witness :
    (Thermistor.new 14 10000 true true (0 : ℝ)).useCBeta = true ∧
    (Thermistor.new 14 10000 true true (0 : ℝ)).cBeta ≠ 0 ∧
    0 < (Thermistor.new 14 10000 true true (0 : ℝ)).nomRst ∧
    (Thermistor.new 14 10000 true true (0 : ℝ)).nomTemp + 27315 / 100 ≠ 0 ∧
    (Thermistor.readTemperatureK_float Real.log (Thermistor.new 14 10000 true true (0 : ℝ))
      10000).value = some (29815 / 100) ∧
    (Thermistor.readTemperatureC_float Real.log (Thermistor.new 14 10000 true true (0 : ℝ))
      10000).value = some 25 := by
  have h1 : (Thermistor.new 14 10000 true true (0 : ℝ)).useCBeta = true := rfl
  have h2 : (Thermistor.new 14 10000 true true (0 : ℝ)).cBeta ≠ 0 := by
    simp [Thermistor.new, Thermistor.setTType]
  have h3 : 0 < (Thermistor.new 14 10000 true true (0 : ℝ)).nomRst := by
    simp [Thermistor.new, Thermistor.setTType]
  have h4 : (Thermistor.new 14 10000 true true (0 : ℝ)).nomTemp + 27315 / 100 ≠ 0 := by
    simp only [Thermistor.new, Thermistor.setTType]
    norm_num
  have h := readTemperature_at_nominal (Thermistor.new 14 10000 true true (0 : ℝ)) h1 h2 h3 h4
  have e1 : (Thermistor.new 14 10000 true true (0 : ℝ)).nomRst = 10000 := by
    simp [Thermistor.new, Thermistor.setTType]
  have e2 : (Thermistor.new 14 10000 true true (0 : ℝ)).nomTemp = 25 := by
    simp [Thermistor.new, Thermistor.setTType]
  rw [e1, e2] at h
  refine ⟨h1, h2, h3, h4, ?_, h.2.1⟩
  rw [h.1]
  norm_num

/-! ## The TMP36 mapping and the unit conversions -/

/-- C13: for every offset, multiplier and voltage `v`,
`TMP36::readTemperatureC(v) = (v - offset) * multiplier` and
`TMP36::readTemperatureK(v) = (v - offset) * multiplier + 273.15`; with the
constructor defaults (offset 0.5, multiplier 100) `readTemperatureC(0.75)` is
exactly 25. -/
theorem TMP36_readTemperature_float (s : TMP36) (offset multiplier v : ℚ) (sPin : Nat) :
    (TMP36.readTemperatureC_float (s.setParms offset multiplier) v).value
      = some ((v - offset) * multiplier) ∧
    (TMP36.readTemperatureK_float (s.setParms offset multiplier) v).value
      = some ((v - offset) * multiplier + 27315 / 100) ∧
    (TMP36.new sPin).offset = 1 / 2 ∧ (TMP36.new sPin).multiplier = 100 ∧
    (TMP36.readTemperatureC_float (TMP36.new sPin) (3 / 4)).value = some 25 := by
  refine ⟨rfl, rfl, rfl, rfl, ?_⟩
  show some (((3 / 4 : ℚ) - 1 / 2) * 100) = some 25
  norm_num

theorem value_thermistorCelsiusToFahrenheit {K : Type} [LinearOrderedField K]
    (c : K) : (Thermistor.convertCelsiusToFahrenheit c).value = some (c * 9 / 5 + 32) := by
  unfold Thermistor.convertCelsiusToFahrenheit
  rw [fdiv_of_ne_zero _ (by norm_num : (5 : K) ≠ 0)]
  rfl

theorem value_tmp36CelsiusToFahrenheit (c : ℚ) :
    (TMP36.convertCelsiusToFahrenheit c).value = some (c * 9 / 5 + 32) := by
  unfold TMP36.convertCelsiusToFahrenheit
  rw [fdiv_of_ne_zero _ (by norm_num : (5 : ℚ) ≠ 0)]
  rfl

/-- C18: for every thermistor and resistance `r`,
`readTemperatureC(r) = readTemperatureK(r) - 273.15` and
`readTemperatureF(r) = readTemperatureC(r) * 9/5 + 32`, and for every TMP36
and voltage `v`, `readTemperatureF(v) = readTemperatureC(v) * 9/5 + 32`, in
exact arithmetic (each side has a value when the other has). -/
theorem readTemperature_unit_conversions {K : Type} [LinearOrderedField K] (ln : K → K)
    (th : Thermistor K) (r : K) (s : TMP36) (v : ℚ) :
    (Thermistor.readTemperatureC_float ln th r).value
      = (Thermistor.readTemperatureK_float ln th r).value.map (fun k => k - 27315 / 100) ∧
    (Thermistor.readTemperatureF_float ln th r).value
      = (Thermistor.readTemperatureC_float ln th r).value.map (fun c => c * 9 / 5 + 32) ∧
    (TMP36.readTemperatureF_float s v).value
      = (TMP36.readTemperatureC_float s v).value.map (fun c => c * 9 / 5 + 32) := by
  refine ⟨?_, ?_, ?_⟩
  · exact FComp.value_andThen_ret _ _
  · show ((Thermistor.readTemperatureC_float ln th r).andThen
      Thermistor.convertCelsiusToFahrenheit).value = _
    rw [FComp.value_andThen]
    cases (Thermistor.readTemperatureC_float ln th r).value with
    | none => rfl
    | some c => exact value_thermistorCelsiusToFahrenheit c
  · show ((TMP36.readTemperatureC_float s v).andThen TMP36.convertCelsiusToFahrenheit).value = _
    rw [FComp.value_andThen]
    cases (TMP36.readTemperatureC_float s v).value with
    | none => rfl
    | some c => exact value_tmp36CelsiusToFahrenheit c

/-! ## Selecting a curve -/

/-- C14: after `setCBeta(b, n, t)` the value of `readTemperatureK(r)` is the
Beta-model value for `(b, n, t)` whatever the state before the call, and after
`setC123(c1, c2, c3)` it is the Steinhart-Hart value for `(c1, c2, c3)`
whatever the state before the call. -/
theorem setCBeta_setC123_replace_curve {K : Type} [LinearOrderedField K] (ln : K → K)
    (th th2 : Thermistor K) (b : Nat) (n t c1 c2 c3 r : K) :
    (Thermistor.readTemperatureK_float ln (th.setCBeta b n t) r
      = Thermistor.readTemperatureK_float ln (th2.setCBeta b n t) r ∧
     (Thermistor.readTemperatureK_float ln (th.setCBeta b n t) r).value
      = if t + 27315 / 100 ≠ 0 ∧ (b : K) ≠ 0 ∧ n ≠ 0 ∧ 0 < r / n ∧ betaInvT ln (b : K) n t r ≠ 0
          then some (1 / betaInvT ln (b : K) n t r) else none) ∧
    (Thermistor.readTemperatureK_float ln (th.setC123 c1 c2 c3) r
      = Thermistor.readTemperatureK_float ln (th2.setC123 c1 c2 c3) r ∧
     (Thermistor.readTemperatureK_float ln (th.setC123 c1 c2 c3) r).value
      = if 0 < r ∧ steinhartHartInvT ln c1 c2 c3 r ≠ 0
          then some (1 / steinhartHartInvT ln c1 c2 c3 r) else none) := by
  have hb : ∀ x : Thermistor K, Thermistor.readTemperatureK_float ln (x.setCBeta b n t) r
      = if t + 27315 / 100 ≠ 0 ∧ (b : K) ≠ 0 ∧ n ≠ 0 ∧ 0 < r / n ∧ betaInvT ln (b : K) n t r ≠ 0
          then some (1 / betaInvT ln (b : K) n t r, 4) else none :=
    fun x => readTemperatureK_float_beta ln (x.setCBeta b n t) r rfl
  have hs : ∀ x : Thermistor K, Thermistor.readTemperatureK_float ln (x.setC123 c1 c2 c3) r
      = if 0 < r ∧ steinhartHartInvT ln c1 c2 c3 r ≠ 0
          then some (1 / steinhartHartInvT ln c1 c2 c3 r, 1) else none :=
    fun x => readTemperatureK_float_shh ln (x.setC123 c1 c2 c3) r rfl
  refine ⟨⟨by rw [hb th, hb th2], ?_⟩, ⟨by rw [hs th, hs th2], ?_⟩⟩
  · rw [hb th]
    split_ifs <;> rfl
  · rw [hs th]
    split_ifs <;> rfl

/-! ## The instance counter -/

theorem vDivCounterIncr_iterate (c n : Nat) : vDivCounterIncr^[n] c = (c + n) % 256 ∨ n = 0 := by
  induction n with
  | zero => exact Or.inr rfl
  | succ k ih =>
    left
    rw [Function.iterate_succ_apply']
    rcases ih with h | h
    · rw [h]
      unfold vDivCounterIncr
      omega
    · subst h
      rfl

theorem vDivCounterDecr_mod (x : Nat) (h : 1 ≤ x) :
    vDivCounterDecr (x % 256) = (x - 1) % 256 := by
  unfold vDivCounterDecr
  omega

theorem vDivCounterDecr_iterate (x m : Nat) (h : m ≤ x) :
    vDivCounterDecr^[m] (x % 256) = (x - m) % 256 := by
  induction m with
  | zero => rfl
  | succ k ih =>
    rw [Function.iterate_succ_apply', ih (by omega), vDivCounterDecr_mod _ (by omega)]
    congr 1

/-- The counter after `n` constructions and then `m ≤ n` destructions. -/
theorem vDivCount_eq (n m : Nat) (h : m ≤ n) :
    vDivCount vDivCounterInit n m = (n - m) % 256 := by
  unfold vDivCount vDivCounterInit
  rcases vDivCounterIncr_iterate 0 n with hn | hn
  · rw [hn, Nat.zero_add, vDivCounterDecr_iterate n m h]
  · subst hn
    have hm : m = 0 := by omega
    subst hm
    rfl

/-- C15 (as stated, refuted): 256 constructions and no destruction leave the
8-bit counter at 0, not at 256. -/
theorem vDivCount_wraps :
    0 ≤ 256 ∧ vDivCount vDivCounterInit 256 0 = 0 ∧
    vDivCount vDivCounterInit 256 0 ≠ 256 - 0 := by
  rw [vDivCount_eq 256 0 (by omega)]
  omega

/-- C15 (amended): from a counter of 0, `N` constructions followed by
`M ≤ N` destructions leave `vDivCount()` at `(N - M) mod 256`, which is
exactly `N - M` when `N - M ≤ 255`. -/
theorem vDivCount_after (N M : Nat) (h : M ≤ N) :
    vDivCount vDivCounterInit N M = (N - M) % 256 ∧
    (N - M ≤ 255 → vDivCount vDivCounterInit N M = N - M) := by
  rw [vDivCount_eq N M h]
  exact ⟨rfl, fun hs => Nat.mod_eq_of_lt (by omega)⟩

theorem vDivCount_after_witness :
    3 ≤ 7 ∧ vDivCount vDivCounterInit 7 3 = 4 :=
  ⟨by omega, (vDivCount_after 7 3 (by omega)).2 (by omega)⟩

/-! ## Codes inside and outside the hardware bounds -/

theorem ratio_pos (d : vDivider) (code : Nat) (h1 : 1 ≤ code) (h2 : code ≤ d.adcMax) :
    (0 : ℚ) < ((d.adcMax + 1 : Nat) : ℚ) / code - 1 := by
  have hc : (0 : ℚ) < (code : ℚ) := by exact_mod_cast h1
  have hlt : (code : ℚ) < ((d.adcMax + 1 : Nat) : ℚ) := by
    exact_mod_cast Nat.lt_succ_of_le h2
  rw [sub_pos, lt_div_iff₀ hc, one_mul]
  exact hlt

/-- C16: for `balanceResistor ≥ 0` and a code `c` in `[1, adcMax]` the ratio
`(adcMax + 1)/c - 1` is strictly positive, and each of `calcR1(c)`,
`calcR2(c)`, `calcR1x(c)` and `calcR2x(c)` has a value (no division by zero),
which is `≥ 0`. -/
theorem calcR_code_defined_nonneg (d : vDivider) (code : Nat)
    (hb : 0 ≤ d.balanceResistor) (h1 : 1 ≤ code) (h2 : code ≤ d.adcMax) :
    (0 : ℚ) < ((d.adcMax + 1 : Nat) : ℚ) / code - 1 ∧
    (∃ r1 : ℚ, (calcR1_u16 d code).value = some r1 ∧ 0 ≤ r1) ∧
    (∃ r2 : ℚ, (calcR2_u16 d code).value = some r2 ∧ 0 ≤ r2) ∧
    (∃ r1 : ℚ, (calcR1x_u16 d code).value = some r1 ∧ 0 ≤ r1) ∧
    (∃ r2 : ℚ, (calcR2x_u16 d code).value = some r2 ∧ 0 ≤ r2) := by
  have hr := ratio_pos d code h1 h2
  have hc : code ≠ 0 := by omega
  refine ⟨hr, ?_⟩
  rcases eq_or_lt_of_le hb with h0 | hpos
  · have hn : ¬ d.balanceResistor > 0 := by
      rw [← h0]
      exact lt_irrefl 0
    refine ⟨⟨0, ?_, le_refl 0⟩, ⟨0, ?_, le_refl 0⟩, ⟨0, ?_, le_refl 0⟩, ⟨0, ?_, le_refl 0⟩⟩
    · simp only [calcR1_u16, doCalcR1_u16, if_neg hn, FComp.pure_eq, FComp.value_ret]
    · simp only [calcR2_u16, doCalcR2_u16, if_neg hn, FComp.pure_eq, FComp.value_ret]
    · simp only [calcR1x_u16, doCalcR1x_u16, if_neg hn, FComp.pure_eq, FComp.value_ret]
    · simp only [calcR2x_u16, doCalcR2x_u16, if_neg hn, FComp.pure_eq, FComp.value_ret]
  · have hx1 : (doCalcR1x_u16 d code).value
        = some (d.balanceResistor * (((d.adcMax + 1 : Nat) : ℚ) / code - 1)) := by
      rw [doCalcR1x_u16_eq d code hpos hc]
      rfl
    have hx2 : (doCalcR2x_u16 d code).value
        = some (d.balanceResistor / (((d.adcMax + 1 : Nat) : ℚ) / code - 1)) := by
      rw [doCalcR2x_u16_eq d code hpos hc, if_neg (ne_of_gt hr)]
      rfl
    have n1 : 0 ≤ d.balanceResistor * (((d.adcMax + 1 : Nat) : ℚ) / code - 1) :=
      le_of_lt (mul_pos hpos hr)
    have n2 : 0 ≤ d.balanceResistor / (((d.adcMax + 1 : Nat) : ℚ) / code - 1) :=
      le_of_lt (div_pos hpos hr)
    refine ⟨?_, ?_, ⟨_, hx1, n1⟩, ⟨_, hx2, n2⟩⟩
    · cases hi : d.isR1 with
      | false =>
        refine ⟨_, ?_, n1⟩
        show (doCalcR1_u16 d code).value = _
        rw [doCalcR1_u16_of_isR2 d code hi, hx1]
      | true =>
        refine ⟨d.balanceResistor, ?_, hb⟩
        simp only [calcR1_u16, doCalcR1_u16, if_pos hpos, hi, if_true, FComp.pure_eq,
          FComp.value_ret]
    · cases hi : d.isR1 with
      | false =>
        refine ⟨d.balanceResistor, ?_, hb⟩
        simp only [calcR2_u16, doCalcR2_u16, if_pos hpos, hi, Bool.false_eq_true, if_false,
          FComp.pure_eq, FComp.value_ret]
      | true =>
        refine ⟨_, ?_, n2⟩
        show (doCalcR2_u16 d code).value = _
        rw [doCalcR2_u16_of_isR1 d code hi, hx2]

theorem calcR_code_defined_nonneg_witness :
    0 ≤ (defaults 14 10000 true).balanceResistor ∧ 1 ≤ 256 ∧
    256 ≤ (defaults 14 10000 true).adcMax ∧
    (0 : ℚ) < (((defaults 14 10000 true).adcMax + 1 : Nat) : ℚ) / (256 : Nat) - 1 ∧
    (∃ r1 : ℚ, (calcR1_u16 (defaults 14 10000 true) 256).value = some r1 ∧ 0 ≤ r1) ∧
    (∃ r2 : ℚ, (calcR2_u16 (defaults 14 10000 true) 256).value = some r2 ∧ 0 ≤ r2) ∧
    (∃ r1 : ℚ, (calcR1x_u16 (defaults 14 10000 true) 256).value = some r1 ∧ 0 ≤ r1) ∧
    (∃ r2 : ℚ, (calcR2x_u16 (defaults 14 10000 true) 256).value = some r2 ∧ 0 ≤ r2) :=
  ⟨by norm_num [defaults], by norm_num, by norm_num [defaults],
    calcR_code_defined_nonneg (defaults 14 10000 true) 256 (by norm_num [defaults])
      (by norm_num) (by norm_num [defaults])⟩

/-- C17 (code evaluated at the failing input): balance resistor 10 kΩ,
`adcMax = 1023`.  The code 2048 would be clamped to 1023, yet `calcR1x(2048)`
is `-5000` where `calcR1x(1023)` is `10000/1023`, and `calcR2x(2048)` is
`-20000` where `calcR2x(1023)` is `10230000`; `calcR2` (balance resistor R1)
and `calcR1` (balance resistor R2) give the same values. -/
theorem calcR_code_not_clamped :
    constrain 2048 0 (defaults 14 10000 true).adcMax = 1023 ∧
    ((calcR1x_u16 (defaults 14 10000 true) 2048).value = some (-5000) ∧
      (calcR1x_u16 (defaults 14 10000 true) 1023).value = some (10000 / 1023)) ∧
    ((calcR2x_u16 (defaults 14 10000 true) 2048).value = some (-20000) ∧
      (calcR2x_u16 (defaults 14 10000 true) 1023).value = some 10230000) ∧
    ((calcR2_u16 (defaults 14 10000 true) 2048).value = some (-20000) ∧
      (calcR2_u16 (defaults 14 10000 true) 1023).value = some 10230000) ∧
    ((calcR1_u16 (defaults 14 10000 false) 2048).value = some (-5000) ∧
      (calcR1_u16 (defaults 14 10000 false) 1023).value = some (10000 / 1023)) := by
  have hb : ∀ b : Bool, (defaults 14 10000 b).balanceResistor > 0 := by
    intro b
    norm_num [defaults]
  have x1 : ∀ (b : Bool) (c : Nat), c ≠ 0 → (doCalcR1x_u16 (defaults 14 10000 b) c).value
      = some (10000 * ((1024 : ℚ) / c - 1)) := by
    intro b c hc
    rw [doCalcR1x_u16_eq _ c (hb b) hc]
    simp only [FComp.value, defaults]
    norm_num
  have x2 : ∀ (b : Bool) (c : Nat), c ≠ 0 → (1024 : ℚ) / c - 1 ≠ 0 →
      (doCalcR2x_u16 (defaults 14 10000 b) c).value = some (10000 / ((1024 : ℚ) / c - 1)) := by
    intro b c hc hr
    have hr2 : ¬ (((defaults 14 10000 b).adcMax + 1 : Nat) : ℚ) / c - 1 = 0 := by
      simp only [defaults]
      norm_num
      exact fun h => hr (by rw [h])
    rw [doCalcR2x_u16_eq _ c (hb b) hc, if_neg hr2]
    simp only [FComp.value, defaults]
    norm_num
  refine ⟨by simp [constrain, defaults], ⟨?_, ?_⟩, ⟨?_, ?_⟩, ⟨?_, ?_⟩, ⟨?_, ?_⟩⟩
  · show (doCalcR1x_u16 _ _).value = _
    rw [x1 true 2048 (by norm_num)]
    norm_num
  · show (doCalcR1x_u16 _ _).value = _
    rw [x1 true 1023 (by norm_num)]
    norm_num
  · show (doCalcR2x_u16 _ _).value = _
    rw [x2 true 2048 (by norm_num) (by norm_num)]
    norm_num
  · show (doCalcR2x_u16 _ _).value = _
    rw [x2 true 1023 (by norm_num) (by norm_num)]
    norm_num
  · show (doCalcR2_u16 _ _).value = _
    rw [doCalcR2_u16_of_isR1 _ _ rfl, x2 true 2048 (by norm_num) (by norm_num)]
    norm_num
  · show (doCalcR2_u16 _ _).value = _
    rw [doCalcR2_u16_of_isR1 _ _ rfl, x2 true 1023 (by norm_num) (by norm_num)]
    norm_num
  · show (doCalcR1_u16 _ _).value = _
    rw [doCalcR1_u16_of_isR2 _ _ rfl, x1 false 2048 (by norm_num)]
    norm_num
  · show (doCalcR1_u16 _ _).value = _
    rw [doCalcR1_u16_of_isR2 _ _ rfl, x1 false 1023 (by norm_num)]
    norm_num

/-! ## Reconfiguration -/

/-- C19: applying `setConsts` twice with the same arguments yields the state
reached by applying it once, so `calcVOut`, `calcR1`, `calcR2`, `calcR1x` and
`calcR2x` return the same outputs for the same code or voltage afterwards. -/
theorem setConsts_idempotent (d : vDivider) (samples sampleDelay adcReadyDelay : Nat)
    (avRef : ℚ) (adcMax code : Nat) (v : ℚ) :
    (d.setConsts samples sampleDelay adcReadyDelay avRef adcMax).setConsts
        samples sampleDelay adcReadyDelay avRef adcMax
      = d.setConsts samples sampleDelay adcReadyDelay avRef adcMax ∧
    calcVOut_u16 ((d.setConsts samples sampleDelay adcReadyDelay avRef adcMax).setConsts
        samples sampleDelay adcReadyDelay avRef adcMax) code
      = calcVOut_u16 (d.setConsts samples sampleDelay adcReadyDelay avRef adcMax) code ∧
    (calcR1_u16 ((d.setConsts samples sampleDelay adcReadyDelay avRef adcMax).setConsts
        samples sampleDelay adcReadyDelay avRef adcMax) code
      = calcR1_u16 (d.setConsts samples sampleDelay adcReadyDelay avRef adcMax) code ∧
     calcR2_u16 ((d.setConsts samples sampleDelay adcReadyDelay avRef adcMax).setConsts
        samples sampleDelay adcReadyDelay avRef adcMax) code
      = calcR2_u16 (d.setConsts samples sampleDelay adcReadyDelay avRef adcMax) code ∧
     calcR1x_u16 ((d.setConsts samples sampleDelay adcReadyDelay avRef adcMax).setConsts
        samples sampleDelay adcReadyDelay avRef adcMax) code
      = calcR1x_u16 (d.setConsts samples sampleDelay adcReadyDelay avRef adcMax) code ∧
     calcR2x_u16 ((d.setConsts samples sampleDelay adcReadyDelay avRef adcMax).setConsts
        samples sampleDelay adcReadyDelay avRef adcMax) code
      = calcR2x_u16 (d.setConsts samples sampleDelay adcReadyDelay avRef adcMax) code) ∧
    (calcR1_float ((d.setConsts samples sampleDelay adcReadyDelay avRef adcMax).setConsts
        samples sampleDelay adcReadyDelay avRef adcMax) v
      = calcR1_float (d.setConsts samples sampleDelay adcReadyDelay avRef adcMax) v ∧
     calcR2_float ((d.setConsts samples sampleDelay adcReadyDelay avRef adcMax).setConsts
        samples sampleDelay adcReadyDelay avRef adcMax) v
      = calcR2_float (d.setConsts samples sampleDelay adcReadyDelay avRef adcMax) v ∧
     calcR1x_float ((d.setConsts samples sampleDelay adcReadyDelay avRef adcMax).setConsts
        samples sampleDelay adcReadyDelay avRef adcMax) v
      = calcR1x_float (d.setConsts samples sampleDelay adcReadyDelay avRef adcMax) v ∧
     calcR2x_float ((d.setConsts samples sampleDelay adcReadyDelay avRef adcMax).setConsts
        samples sampleDelay adcReadyDelay avRef adcMax) v
      = calcR2x_float (d.setConsts samples sampleDelay adcReadyDelay avRef adcMax) v) := by
  have h : (d.setConsts samples sampleDelay adcReadyDelay avRef adcMax).setConsts
      samples sampleDelay adcReadyDelay avRef adcMax
      = d.setConsts samples sampleDelay adcReadyDelay avRef adcMax := rfl
  rw [h]
  exact ⟨rfl, rfl, ⟨rfl, rfl, rfl, rfl⟩, ⟨rfl, rfl, rfl, rfl⟩⟩

/-! ## The sampling path of the thermistor -/

/-- C20: when `readADC` yields the averaged code `c`, the sampling form
`readTemperatureK()` equals `readTemperatureK(calcR2(c))` on a thermistor whose
balance resistor is R1 and `readTemperatureK(calcR1(c))` on one whose balance
resistor is R2, and it makes exactly the `analogRead` calls of one `readADC`
pass. -/
theorem readTemperatureK_sampling {K : Type} [LinearOrderedField K] (ln : K → K)
    (th : Thermistor K) (adc : Nat → Nat) (t c : Nat)
    (hc : (readADC th.tovDivider adc t).1.value = some c) :
    (th.isR1 = true → (Thermistor.readTemperatureK ln th adc t).1.value
      = (calcR2_u16 th.tovDivider c).value.bind
          fun r => (Thermistor.readTemperatureK_float ln th (r : K)).value) ∧
    (th.isR1 = false → (Thermistor.readTemperatureK ln th adc t).1.value
      = (calcR1_u16 th.tovDivider c).value.bind
          fun r => (Thermistor.readTemperatureK_float ln th (r : K)).value) ∧
    (Thermistor.readTemperatureK ln th adc t).2 = (readADC th.tovDivider adc t).2 := by
  refine ⟨?_, ?_, ?_⟩
  · intro hi
    unfold Thermistor.readTemperatureK
    simp only [hi, if_true, calcR2, FComp.bind_eq]
    rw [FComp.value_andThen, FComp.value_andThen, hc]
    rfl
  · intro hi
    unfold Thermistor.readTemperatureK
    simp only [hi, Bool.false_eq_true, if_false, calcR1, FComp.bind_eq]
    rw [FComp.value_andThen, FComp.value_andThen, hc]
    rfl
  · unfold Thermistor.readTemperatureK
    cases th.isR1 with
    | false => rfl
    | true => rfl

theorem readTemperatureK_sampling_witness :
    (readADC (Thermistor.new 14 10000 true true (0 : ℝ)).tovDivider
      (fun _ => 511) 0).1.value = some 512 ∧
    (Thermistor.new 14 10000 true true (0 : ℝ)).isR1 = true ∧
    (calcR2_u16 (Thermistor.new 14 10000 true true (0 : ℝ)).tovDivider 512).value
      = some 10000 ∧
    (Thermistor.readTemperatureK Real.log (Thermistor.new 14 10000 true true (0 : ℝ))
      (fun _ => 511) 0).1.value = some (29815 / 100) ∧
    (Thermistor.readTemperatureK Real.log (Thermistor.new 14 10000 true true (0 : ℝ))
      (fun _ => 511) 0).2 = 17 := by
  have hd : (Thermistor.new 14 10000 true true (0 : ℝ)).tovDivider
      = defaults 14 10000 true := rfl
  have hn : 1 ≤ (defaults 14 10000 true).samples := by simp [defaults]
  have hs : samplesTaken (defaults 14 10000 true) (fun _ => 511) 0
      = List.replicate 16 511 := by
    simp [samplesTaken, defaults, List.range_succ, List.replicate]
  have hx : 2 * (samplesTaken (defaults 14 10000 true) (fun _ => 511) 0).sum
      + (defaults 14 10000 true).samples < 2 ^ 24 := by
    rw [hs]
    simp [defaults, List.replicate]
  have hc : (readADC (Thermistor.new 14 10000 true true (0 : ℝ)).tovDivider
      (fun _ => 511) 0).1.value = some 512 := by
    rw [hd, readADC_value _ _ _ hn hx, hs]
    simp [defaults, List.replicate]
  have h2 : (calcR2_u16 (defaults 14 10000 true) 512).value = some 10000 := by
    show (doCalcR2x_u16 _ _).value = _
    rw [doCalcR2x_u16_eq _ _ (by norm_num [defaults]) (by norm_num)]
    simp only [defaults]
    norm_num [FComp.value]
  have hk := readTemperatureK_float_nominal Real.log Real.log_one
    (Thermistor.new 14 10000 true true (0 : ℝ)) rfl
    (by simp [Thermistor.new, Thermistor.setTType])
    (by simp [Thermistor.new, Thermistor.setTType])
    (by simp only [Thermistor.new, Thermistor.setTType]; norm_num)
  have e1 : (Thermistor.new 14 10000 true true (0 : ℝ)).nomRst = 10000 := by
    simp [Thermistor.new, Thermistor.setTType]
  have e2 : (Thermistor.new 14 10000 true true (0 : ℝ)).nomTemp = 25 := by
    simp [Thermistor.new, Thermistor.setTType]
  rw [e1, e2] at hk
  have h := readTemperatureK_sampling Real.log (Thermistor.new 14 10000 true true (0 : ℝ))
    (fun _ => 511) 0 512 hc
  refine ⟨hc, rfl, by rw [hd]; exact h2, ?_, ?_⟩
  · rw [h.1 rfl, hd, h2, Option.some_bind]
    rw [show ((10000 : ℚ) : ℝ) = 10000 by norm_num, hk]
    simp only [FComp.value, Option.some.injEq]
    norm_num
  · rw [h.2.2, hd, readADC_eq _ _ _ hn hx]
    simp [firstSample, defaults]

/-! ## Division by zero in the voltage forms -/

/-- C21 (as stated, refuted): with `avRef = 3.3` and a 10 kΩ balance
resistor the voltage `v = avRef` lies in `(0, avRef]`, the ratio
`avRef / v - 1` is 0 and `calcR2x(v)` divides by it. -/
theorem calcR2x_float_at_avRef_undefined :
    (defaults 14 10000 true).avRef > 0 ∧ (defaults 14 10000 true).balanceResistor > 0 ∧
    (0 : ℚ) < 33 / 10 ∧ (33 / 10 : ℚ) ≤ (defaults 14 10000 true).avRef ∧
    calcRRatio_float (defaults 14 10000 true) (33 / 10) = some (0, 1) ∧
    calcR2x_float (defaults 14 10000 true) (33 / 10) = none := by
  refine ⟨by norm_num [defaults], by norm_num [defaults], by norm_num,
    by norm_num [defaults], ?_, ?_⟩
  · rw [calcRRatio_float_eq]
    norm_num [defaults]
  · show doCalcR2x_float _ _ = _
    rw [doCalcR2x_float_eq _ _ (by norm_num [defaults]) (by norm_num)]
    norm_num [defaults]

/-- C21 (amended): for `avRef > 0`, a positive balance resistor and a voltage
`0 < v ≤ avRef`, `calcR1x(v)` divides by no zero, and `calcR2x(v)` divides by
no zero when `v < avRef`; at `v = avRef` the ratio is 0 and `calcR2x(v)`
divides by it. -/
theorem calcRx_float_division_by_zero (d : vDivider) (v : ℚ)
    (ha : d.avRef > 0) (hb : d.balanceResistor > 0) (hv0 : 0 < v) (hv1 : v ≤ d.avRef) :
    (∃ r1 : ℚ, (calcR1x_float d v).value = some r1) ∧
    (v < d.avRef → ∃ r2 : ℚ, (calcR2x_float d v).value = some r2) ∧
    (v = d.avRef → calcR2x_float d v = none) := by
  have hv : v ≠ 0 := ne_of_gt hv0
  refine ⟨⟨d.balanceResistor * (d.avRef / v - 1), ?_⟩, ?_, ?_⟩
  · show (doCalcR1x_float d v).value = _
    rw [doCalcR1x_float_eq d v hb hv]
    rfl
  · intro hlt
    have hr : d.avRef / v - 1 ≠ 0 := by
      have h1 : 1 < d.avRef / v := by
        rw [lt_div_iff₀ hv0, one_mul]
        exact hlt
      linarith
    refine ⟨d.balanceResistor / (d.avRef / v - 1), ?_⟩
    show (doCalcR2x_float d v).value = _
    rw [doCalcR2x_float_eq d v hb hv, if_neg hr]
    rfl
  · intro heq
    have hr : d.avRef / v - 1 = 0 := by
      rw [heq, div_self (ne_of_gt ha), sub_self]
    show doCalcR2x_float d v = _
    rw [doCalcR2x_float_eq d v hb hv, if_pos hr]

theorem calcRx_float_division_by_zero_witness :
    (defaults 14 10000 true).avRef > 0 ∧ (defaults 14 10000 true).balanceResistor > 0 ∧
    (0 : ℚ) < 11 / 10 ∧ (11 / 10 : ℚ) ≤ (defaults 14 10000 true).avRef ∧
    (∃ r1 : ℚ, (calcR1x_float (defaults 14 10000 true) (11 / 10)).value = some r1) ∧
    (∃ r2 : ℚ, (calcR2x_float (defaults 14 10000 true) (11 / 10)).value = some r2) := by
  have h := calcRx_float_division_by_zero (defaults 14 10000 true) (11 / 10)
    (by norm_num [defaults]) (by norm_num [defaults]) (by norm_num) (by norm_num [defaults])
  exact ⟨by norm_num [defaults], by norm_num [defaults], by norm_num, by norm_num [defaults],
    h.1, h.2.1 (by norm_num [defaults])⟩

/-! ## The balance resistor itself -/

/-- C24: with a positive balance resistor, `calcR1` on a divider whose
balance resistor is R1 and `calcR2` on a divider whose balance resistor is R2
return the balance resistor without performing a division, for every code
(as `uint16_t` or `int`) and every voltage, zero included. -/
theorem calcR_of_balance (d : vDivider) (code : Nat) (i : Int) (v : ℚ)
    (hb : d.balanceResistor > 0) :
    (calcR1_u16 { d with isR1 := true } code = FComp.ret d.balanceResistor ∧
      calcR1_int { d with isR1 := true } i = FComp.ret d.balanceResistor ∧
      calcR1_float { d with isR1 := true } v = FComp.ret d.balanceResistor) ∧
    (calcR2_u16 { d with isR1 := false } code = FComp.ret d.balanceResistor ∧
      calcR2_int { d with isR1 := false } i = FComp.ret d.balanceResistor ∧
      calcR2_float { d with isR1 := false } v = FComp.ret d.balanceResistor) := by
  refine ⟨⟨?_, ?_, ?_⟩, ⟨?_, ?_, ?_⟩⟩
  · simp only [calcR1_u16, doCalcR1_u16, if_pos hb, if_true, FComp.pure_eq]
  · simp only [calcR1_int, calcR1_u16, doCalcR1_u16, if_pos hb, if_true, FComp.pure_eq]
  · simp only [calcR1_float, doCalcR1_float, if_pos hb, if_true, FComp.pure_eq]
  · simp only [calcR2_u16, doCalcR2_u16, if_pos hb, Bool.false_eq_true, if_false,
      FComp.pure_eq]
  · simp only [calcR2_int, calcR2_u16, doCalcR2_u16, if_pos hb, Bool.false_eq_true, if_false,
      FComp.pure_eq]
  · simp only [calcR2_float, doCalcR2_float, if_pos hb, Bool.false_eq_true, if_false,
      FComp.pure_eq]

theorem calcR_of_balance_witness :
    (defaults 14 10000 true).balanceResistor > 0 ∧
    (calcR1_u16 (defaults 14 10000 true) 0).value = some 10000 ∧
    (calcR1_u16 (defaults 14 10000 true) 0).divisions = some 0 ∧
    (calcR2_float (defaults 14 10000 false) 0).value = some 10000 ∧
    (calcR2_float (defaults 14 10000 false) 0).divisions = some 0 := by
  have h := calcR_of_balance (defaults 14 10000 true) 0 0 0 (by norm_num [defaults])
  have e1 : calcR1_u16 (defaults 14 10000 true) 0 = FComp.ret 10000 := h.1.1
  have e2 : calcR2_float (defaults 14 10000 false) 0 = FComp.ret 10000 := h.2.2.2
  rw [e1, e2]
  exact ⟨by norm_num [defaults], rfl, rfl, rfl, rfl⟩

/-! ## Code form and voltage form -/

/-- The ratio computed from the voltage of a code is the ratio computed from
the code. -/
theorem calcRRatio_float_calcVOut (d : vDivider) (code : Nat) (ha : d.avRef ≠ 0)
    (hc : code ≠ 0) :
    calcRRatio_float d ((code : ℚ) * (d.avRef / ((d.adcMax + 1 : Nat) : ℚ)))
      = calcRRatio_u16 d code := by
  have hs : ((d.adcMax + 1 : Nat) : ℚ) ≠ 0 := by exact_mod_cast Nat.succ_ne_zero d.adcMax
  have hcq : (code : ℚ) ≠ 0 := by exact_mod_cast hc
  have hv : (code : ℚ) * (d.avRef / ((d.adcMax + 1 : Nat) : ℚ)) ≠ 0 :=
    mul_ne_zero hcq (div_ne_zero ha hs)
  rw [calcRRatio_float_eq, calcRRatio_u16_eq, if_neg hv, if_neg hc]
  have hq : d.avRef / ((code : ℚ) * (d.avRef / ((d.adcMax + 1 : Nat) : ℚ)))
      = ((d.adcMax + 1 : Nat) : ℚ) / code := by
    field_simp
    ring
  rw [hq]

/-- Inside the hardware bounds every code form of the resistance functions
has a value. -/
theorem calcR_code_value_ne_none (d : vDivider) (code : Nat) (h1 : 1 ≤ code)
    (h2 : code ≤ d.adcMax) :
    (doCalcR1_u16 d code).value ≠ none ∧ (doCalcR2_u16 d code).value ≠ none ∧
    (doCalcR1x_u16 d code).value ≠ none ∧ (doCalcR2x_u16 d code).value ≠ none := by
  have hr := ratio_pos d code h1 h2
  have hc : code ≠ 0 := by omega
  by_cases hb : d.balanceResistor > 0
  · have hx1 : (doCalcR1x_u16 d code).value ≠ none := by
      rw [doCalcR1x_u16_eq d code hb hc]
      simp [FComp.value]
    have hx2 : (doCalcR2x_u16 d code).value ≠ none := by
      rw [doCalcR2x_u16_eq d code hb hc, if_neg (ne_of_gt hr)]
      simp [FComp.value]
    refine ⟨?_, ?_, hx1, hx2⟩
    · cases hi : d.isR1 with
      | false =>
        rw [doCalcR1_u16_of_isR2 d code hi]
        exact hx1
      | true =>
        simp only [doCalcR1_u16, if_pos hb, hi, if_true, FComp.pure_eq, FComp.value_ret]
        simp
    · cases hi : d.isR1 with
      | false =>
        simp only [doCalcR2_u16, if_pos hb, hi, Bool.false_eq_true, if_false, FComp.pure_eq,
          FComp.value_ret]
        simp
      | true =>
        rw [doCalcR2_u16_of_isR1 d code hi]
        exact hx2
  · refine ⟨?_, ?_, ?_, ?_⟩
    · simp only [doCalcR1_u16, if_neg hb, FComp.pure_eq, FComp.value_ret]
      simp
    · simp only [doCalcR2_u16, if_neg hb, FComp.pure_eq, FComp.value_ret]
      simp
    · simp only [doCalcR1x_u16, if_neg hb, FComp.pure_eq, FComp.value_ret]
      simp
    · simp only [doCalcR2x_u16, if_neg hb, FComp.pure_eq, FComp.value_ret]
      simp

/-- C22: for `avRef ≠ 0` and a code `c` in `[1, adcMax]`, `calcVOut(c)` has a
value `v` and the voltage forms at `v` agree with the code forms at `c`:
`calcR1x(c) = calcR1x(v)`, `calcR2x(c) = calcR2x(v)`, `calcR1(c) = calcR1(v)`
and `calcR2(c) = calcR2(v)`, each of them having a value. -/
theorem calcR_code_eq_calcR_voltage (d : vDivider) (code : Nat) (ha : d.avRef ≠ 0)
    (h1 : 1 ≤ code) (h2 : code ≤ d.adcMax) :
    ∃ v : ℚ, (calcVOut_u16 d code).value = some v ∧
      (calcR1x_u16 d code = calcR1x_float d v ∧ (calcR1x_u16 d code).value ≠ none) ∧
      (calcR2x_u16 d code = calcR2x_float d v ∧ (calcR2x_u16 d code).value ≠ none) ∧
      (calcR1_u16 d code = calcR1_float d v ∧ (calcR1_u16 d code).value ≠ none) ∧
      (calcR2_u16 d code = calcR2_float d v ∧ (calcR2_u16 d code).value ≠ none) := by
  have hc : code ≠ 0 := by omega
  have hr := calcRRatio_float_calcVOut d code ha hc
  have hd := calcR_code_value_ne_none d code h1 h2
  refine ⟨(code : ℚ) * (d.avRef / ((d.adcMax + 1 : Nat) : ℚ)), ?_, ⟨?_, hd.2.2.1⟩,
    ⟨?_, hd.2.2.2⟩, ⟨?_, hd.1⟩, ⟨?_, hd.2.1⟩⟩
  · rw [calcVOut_u16_eq]
    rfl
  · show doCalcR1x_u16 d code = doCalcR1x_float d _
    unfold doCalcR1x_u16 doCalcR1x_float
    rw [hr]
  · show doCalcR2x_u16 d code = doCalcR2x_float d _
    unfold doCalcR2x_u16 doCalcR2x_float
    rw [hr]
  · show doCalcR1_u16 d code = doCalcR1_float d _
    unfold doCalcR1_u16 doCalcR1_float
    rw [hr]
  · show doCalcR2_u16 d code = doCalcR2_float d _
    unfold doCalcR2_u16 doCalcR2_float
    rw [hr]

theorem calcR_code_eq_calcR_voltage_witness :
    (defaults 14 10000 true).avRef ≠ 0 ∧ 1 ≤ 256 ∧ 256 ≤ (defaults 14 10000 true).adcMax ∧
    (calcVOut_u16 (defaults 14 10000 true) 256).value = some (33 / 40) ∧
    (calcR2x_u16 (defaults 14 10000 true) 256).value = some (10000 / 3) ∧
    (calcR2x_float (defaults 14 10000 true) (33 / 40)).value = some (10000 / 3) := by
  obtain ⟨v, hv, -, h2, -, -⟩ := calcR_code_eq_calcR_voltage (defaults 14 10000 true) 256
    (by norm_num [defaults]) (by norm_num) (by norm_num [defaults])
  have hv0 : (calcVOut_u16 (defaults 14 10000 true) 256).value = some (33 / 40) := by
    rw [calcVOut_u16_eq]
    simp only [FComp.value, defaults]
    norm_num
  have hveq : v = 33 / 40 := by
    rw [hv0] at hv
    exact (Option.some.inj hv).symm
  have hx : (calcR2x_u16 (defaults 14 10000 true) 256).value = some (10000 / 3) := by
    show (doCalcR2x_u16 _ _).value = _
    rw [doCalcR2x_u16_eq _ _ (by norm_num [defaults]) (by norm_num)]
    simp only [defaults]
    norm_num [FComp.value]
  refine ⟨by norm_num [defaults], by norm_num, by norm_num [defaults], hv0, hx, ?_⟩
  rw [← hveq, ← h2.1]
  exact hx

/-! ## Monotonicity of the Beta model -/

/-- C23: over the reals, under the Beta model with `cBeta > 0` and
`nomRst > 0`, for resistances `0 < r1 < r2` at which
`1/(nomTemp + 273.15) + (1/cBeta) * ln(r/nomRst)` is positive: when
`nomTemp + 273.15 ≠ 0` both temperatures have a value and
`readTemperatureK(r1) > readTemperatureK(r2)`; when `nomTemp + 273.15 = 0` the
expression divides by zero and neither temperature has a value. -/
theorem readTemperatureK_beta_strictAnti (th : Thermistor ℝ) (r1 r2 : ℝ)
    (hu : th.useCBeta = true) (hb : 0 < th.cBeta) (hn : 0 < th.nomRst)
    (h0 : 0 < r1) (h12 : r1 < r2)
    (hp1 : 0 < 1 / (th.nomTemp + 27315 / 100) + (1 / th.cBeta) * Real.log (r1 / th.nomRst))
    (hp2 : 0 < 1 / (th.nomTemp + 27315 / 100) + (1 / th.cBeta) * Real.log (r2 / th.nomRst)) :
    (th.nomTemp + 27315 / 100 ≠ 0 →
      ∃ t1 t2 : ℝ, (Thermistor.readTemperatureK_float Real.log th r1).value = some t1 ∧
        (Thermistor.readTemperatureK_float Real.log th r2).value = some t2 ∧ t2 < t1) ∧
    (th.nomTemp + 27315 / 100 = 0 →
      Thermistor.readTemperatureK_float Real.log th r1 = none ∧
      Thermistor.readTemperatureK_float Real.log th r2 = none) := by
  have hr2 : 0 < r2 := lt_trans h0 h12
  have hq1 : 0 < r1 / th.nomRst := div_pos h0 hn
  have hq2 : 0 < r2 / th.nomRst := div_pos hr2 hn
  have hn0 : th.nomRst ≠ 0 := ne_of_gt hn
  have hb0 : th.cBeta ≠ 0 := ne_of_gt hb
  constructor
  · intro ht
    have hlog : Real.log (r1 / th.nomRst) < Real.log (r2 / th.nomRst) :=
      Real.log_lt_log hq1 (div_lt_div_of_pos_right h12 hn)
    have hinv : betaInvT Real.log th.cBeta th.nomRst th.nomTemp r1
        < betaInvT Real.log th.cBeta th.nomRst th.nomTemp r2 := by
      unfold betaInvT
      have hcb : 0 < 1 / th.cBeta := one_div_pos.mpr hb
      have := mul_lt_mul_of_pos_left hlog hcb
      linarith
    have hi1 : 0 < betaInvT Real.log th.cBeta th.nomRst th.nomTemp r1 := hp1
    have hi2 : 0 < betaInvT Real.log th.cBeta th.nomRst th.nomTemp r2 := hp2
    refine ⟨1 / betaInvT Real.log th.cBeta th.nomRst th.nomTemp r1,
      1 / betaInvT Real.log th.cBeta th.nomRst th.nomTemp r2, ?_, ?_, ?_⟩
    · rw [readTemperatureK_float_beta Real.log th r1 hu,
        if_pos ⟨ht, hb0, hn0, hq1, ne_of_gt hi1⟩]
      rfl
    · rw [readTemperatureK_float_beta Real.log th r2 hu,
        if_pos ⟨ht, hb0, hn0, hq2, ne_of_gt hi2⟩]
      rfl
    · exact one_div_lt_one_div_of_lt hi1 hinv
  · intro ht
    constructor
    · rw [readTemperatureK_float_beta Real.log th r1 hu, if_neg fun h => h.1 ht]
    · rw [readTemperatureK_float_beta Real.log th r2 hu, if_neg fun h => h.1 ht]

theorem readTemperatureK_beta_strictAnti_witness :
    (Thermistor.new 14 10000 true true (0 : ℝ)).useCBeta = true ∧
    (0 : ℝ) < 10000 ∧ (10000 : ℝ) < 20000 ∧
    ∃ t1 t2 : ℝ,
      (Thermistor.readTemperatureK_float Real.log (Thermistor.new 14 10000 true true (0 : ℝ))
        10000).value = some t1 ∧
      (Thermistor.readTemperatureK_float Real.log (Thermistor.new 14 10000 true true (0 : ℝ))
        20000).value = some t2 ∧ t2 < t1 := by
  have e1 : (Thermistor.new 14 10000 true true (0 : ℝ)).nomRst = 10000 := by
    simp [Thermistor.new, Thermistor.setTType]
  have e2 : (Thermistor.new 14 10000 true true (0 : ℝ)).nomTemp = 25 := by
    simp [Thermistor.new, Thermistor.setTType]
  have e3 : (Thermistor.new 14 10000 true true (0 : ℝ)).cBeta = 3435 := by
    simp [Thermistor.new, Thermistor.setTType]
  have hl1 : Real.log ((10000 : ℝ) / 10000) = 0 := by
    rw [div_self (by norm_num), Real.log_one]
  have hl2 : 0 < Real.log ((20000 : ℝ) / 10000) := Real.log_pos (by norm_num)
  have h := readTemperatureK_beta_strictAnti (Thermistor.new 14 10000 true true (0 : ℝ))
    10000 20000 rfl (by rw [e3]; norm_num) (by rw [e1]; norm_num) (by norm_num)
    (by norm_num)
    (by rw [e1, e2, e3, hl1]; norm_num)
    (by
      rw [e1, e2, e3]
      have : 0 < (1 / 3435 : ℝ) * Real.log (20000 / 10000) := mul_pos (by norm_num) hl2
      have h25 : (0 : ℝ) < 1 / (25 + 27315 / 100) := by norm_num
      linarith)
  exact ⟨rfl, by norm_num, by norm_num, h.1 (by rw [e2]; norm_num)⟩

end LoftMonitor
